import Mathlib

/-!
Verification development for the vllm-profiler mutating admission webhook
(`webhook.py`).  The decision-and-patch-generation engine is shallowly
embedded: Python dicts become typed structures, a dict field that may be
missing or explicitly `null` is a `Field`, and code paths that raise a
Python exception (`AttributeError` from `None.get`, `TypeError` from
iterating/len-ing `None`) return `Except.error`.
-/

set_option maxHeartbeats 1000000

namespace Webhook

/-- A JSON-object member as Python's `dict.get` sees it: the key can be
absent, present with value `null` (Python `None`), or present with a value. -/
inductive Field (α : Type) where
  | absent
  | null
  | val (a : α)
deriving DecidableEq, Repr

/-- `f.orElse d` mirrors Python `obj.get(key, d) or d`: both a missing key and
an explicit `null` collapse to the default. -/
def Field.orElse (f : Field α) (d : α) : α :=
  match f with
  | .val a => a
  | _ => d

/-- Resolve a list-valued field the way the code's `.get(key, [])` call does
when the result is subsequently iterated: `absent` acts as `[]`, `val l` is
`l`.  (`null` reaches the iteration as Python `None` and raises; callers
branch on `null` before using this.) -/
def fieldListD (f : Field (List α)) : List α :=
  match f with
  | .val l => l
  | _ => []

/-- env entry `{"name": ..., "value": ...}` (data model of the pods the
builders construct and inspect). -/
structure EnvVar where
  name : String
  value : String
deriving DecidableEq, Repr

/-- volumeMount record; pre-existing mounts on a pod may lack
`subPath`/`readOnly`, the webhook only reads their `mountPath`. -/
structure VolumeMount where
  name : String
  mountPath : String
  subPath : Option String
  readOnly : Option Bool
deriving DecidableEq, Repr

/-- pod volume; the webhook only reads `name` and only ever constructs a
configMap-backed volume. -/
structure Volume where
  name : String
  configMapName : Option String
deriving DecidableEq, Repr

structure Container where
  name : Field String
  env : Field (List EnvVar)
  volumeMounts : Field (List VolumeMount)
deriving DecidableEq, Repr

structure PodSpec where
  containers : Field (List Container)
  volumes : Field (List Volume)
deriving DecidableEq, Repr

structure PodMeta where
  name : Field String
  labels : Field (List (String × String))
  annotations : Field (List (String × String))
deriving DecidableEq, Repr

structure Pod where
  metadata : Field PodMeta
  spec : Field PodSpec
deriving DecidableEq, Repr

structure KindRec where
  group : Field String
  kind : Field String
deriving DecidableEq, Repr

structure Req where
  uid : Option String
  kind : Field KindRec
  operation : Option String
  ns : Field String
  object : Field Pod
deriving DecidableEq, Repr

structure Review where
  request : Field Req
deriving DecidableEq, Repr

/-- The environment-variable configuration read at process start
(`TARGET_NAMESPACE`, `TARGET_LABEL_KEY`, `TARGET_LABEL_VALUE`,
`TARGET_LABELS`, `INJECT_ENV_NAME`, `INJECT_ENV_VALUE`). -/
structure Config where
  targetNamespace : String
  targetLabelKey : String
  targetLabelValue : String
  targetLabels : String
  injectEnvName : String
  injectEnvValue : String
deriving DecidableEq, Repr

/-- Python exception kinds the request handler can raise. -/
inductive PyErr where
  | attributeError
  | typeError
deriving DecidableEq, Repr

def FILES_VOLUME_NAME : String := "env-injector-files"

def FILES_CONFIGMAP_NAME : String := "env-injector-files"

structure FileKey where
  key : String
  mountPath : String
deriving DecidableEq, Repr

def FILE_KEYS : List FileKey :=
  [⟨"sitecustomize.py", "/home/vllm/profiler/sitecustomize.py"⟩,
   ⟨"profiler_config.yaml", "/home/vllm/profiler/profiler_config.yaml"⟩]

/-- PROFILER_ANNOTATION_PREFIX in the source. -/
def profiler_ann_key_base : String := "vllm.profiler/"

/-! ### parse_target_labels

`str.split`, `str.strip` and `'=' in s` are modelled structurally over the
character list so that everything kernel-evaluates. -/

/-- Python `s.split(sep)` for a one-character separator (keeps empty parts). -/
def splitList (sep : Char) : List Char → List (List Char)
  | [] => [[]]
  | c :: rest =>
    let r := splitList sep rest
    if c = sep then [] :: r
    else
      match r with
      | h :: t => (c :: h) :: t
      | [] => [[c]]

/-- Python `s.strip()` (whitespace as `Char.isWhitespace`). -/
def trimChars (l : List Char) : List Char :=
  ((l.dropWhile Char.isWhitespace).reverse.dropWhile Char.isWhitespace).reverse

/-- Python `s.split(sep, 1)` when `sep in s`: the part before the first
separator and everything after it; `none` when the separator is missing. -/
def splitFirst (sep : Char) : List Char → Option (List Char × List Char)
  | [] => none
  | c :: rest =>
    if c = sep then some ([], rest)
    else (splitFirst sep rest).map (fun pr => (c :: pr.1, pr.2))

/-- `parse_target_labels` (webhook.py lines 40-59): split a
`"k1=v1,k2=v2"` string into pairs, skipping entries without `'='`. -/
def parse_target_labels (s : String) : List (String × String) :=
  if s = "" then []
  else
    (splitList ',' s.data).filterMap (fun pr =>
      let pr := trimChars pr
      match splitFirst '=' pr with
      | some kv => some (String.mk (trimChars kv.1), String.mk (trimChars kv.2))
      | none => none)

/-- `matches_any_label` (webhook.py lines 61-71): OR over the configured
pairs; `pod_labels.get(key) == value`. -/
def matches_any_label (podLabels : List (String × String))
    (targets : List (String × String)) : Bool :=
  targets.any (fun kv => List.lookup kv.1 podLabels == some kv.2)

/-- The annotation-suffix → env-name table (dict literal, insertion order). -/
def annotation_to_env : List (String × String) :=
  [("ranges", "VLLM_PROFILER_RANGES"),
   ("activities", "VLLM_PROFILER_ACTIVITIES"),
   ("record-shapes", "VLLM_PROFILER_RECORD_SHAPES"),
   ("with-stack", "VLLM_PROFILER_WITH_STACK"),
   ("memory", "VLLM_PROFILER_MEMORY"),
   ("output", "VLLM_PROFILER_OUTPUT"),
   ("export-trace", "VLLM_PROFILER_EXPORT_TRACE"),
   ("debug", "VLLM_PROFILER_DEBUG")]

/-- Loop body of `extract_profiler_env_from_annotations` over a given table. -/
def extractFromTable (table : List (String × String))
    (anns : List (String × String)) : List EnvVar :=
  table.filterMap (fun row =>
    (List.lookup (profiler_ann_key_base ++ row.1) anns).map (fun v => ⟨row.2, v⟩))

/-- `extract_profiler_env_from_annotations` (webhook.py lines 73-111). -/
def extract_profiler_env_from_annotations
    (anns : List (String × String)) : List EnvVar :=
  extractFromTable annotation_to_env anns

/-! ### Patch operations -/

inductive POp where
  | add
  | replace
deriving DecidableEq, Repr

/-- The JSON-Pointer paths the builders emit, structured; `render` recovers
the exact strings the Python f-strings produce. -/
inductive PPath where
  | volumesRoot
  | volumesTail
  | containerEnvRoot (i : Nat)
  | containerEnvTail (i : Nat)
  | containerEnvValueAt (i j : Nat)
  | mountsRoot (i : Nat)
  | mountsTail (i : Nat)
deriving DecidableEq, Repr

def PPath.render : PPath → String
  | .volumesRoot => "/spec/volumes"
  | .volumesTail => "/spec/volumes/-"
  | .containerEnvRoot i => s!"/spec/containers/{i}/env"
  | .containerEnvTail i => s!"/spec/containers/{i}/env/-"
  | .containerEnvValueAt i j => s!"/spec/containers/{i}/env/{j}/value"
  | .mountsRoot i => s!"/spec/containers/{i}/volumeMounts"
  | .mountsTail i => s!"/spec/containers/{i}/volumeMounts/-"

/-- The `value` payload of a patch operation. -/
inductive PValue where
  | str (s : String)
  | env (e : EnvVar)
  | envList (l : List EnvVar)
  | volume (v : Volume)
  | volList (l : List Volume)
  | mount (m : VolumeMount)
  | mountList (l : List VolumeMount)
deriving DecidableEq, Repr

structure PatchOp where
  op : POp
  path : PPath
  value : PValue
deriving DecidableEq, Repr

/-! ### build_env_patch_for_pod -/

/-- Inner loop of `build_env_patch_for_pod` over one container (webhook.py
lines 137-158): for each variable to inject, either emit a replace at the
index where the name already occurs in the container's original env list, or
queue it for append.  Returns (replace ops, queued vars), both in input
order. -/
def envScan (i : Nat) (orig : List EnvVar) :
    List EnvVar → List PatchOp × List EnvVar
  | [] => ([], [])
  | ev :: rest =>
    let r := envScan i orig rest
    match orig.findIdx? (fun it => it.name == ev.name) with
    | some j => (⟨.replace, .containerEnvValueAt i j, .str ev.value⟩ :: r.1, r.2)
    | none => (r.1, ev :: r.2)

/-- Patch operations for one container (webhook.py lines 129-178):
replaces first, then either one tail-append per queued variable (env list
non-empty) or a single list-creating add (env list empty/missing). -/
def envContainerOps (i : Nat) (orig : List EnvVar) (vars : List EnvVar) :
    List PatchOp :=
  let r := envScan i orig vars
  r.1 ++
    (if r.2.isEmpty then []
     else if !orig.isEmpty then
       r.2.map (fun ev => ⟨.add, .containerEnvTail i, .env ev⟩)
     else [⟨.add, .containerEnvRoot i, .envList r.2⟩])

/-- The container loop of `build_env_patch_for_pod`; a container whose
`env` key holds `null` raises `TypeError` (`len(None)` at line 132). -/
def envPodOps (vars : List EnvVar) : Nat → List Container →
    Except PyErr (List PatchOp)
  | _, [] => .ok []
  | i, c :: rest =>
    match c.env with
    | .null => .error .typeError
    | ef =>
      match envPodOps vars (i + 1) rest with
      | .error e => .error e
      | .ok more => .ok (envContainerOps i (fieldListD ef) vars ++ more)

/-- `build_env_patch_for_pod` (webhook.py lines 113-181).
`pod.get("spec", {})` has no `or {}`, so a `null` spec raises
`AttributeError`; a `null` containers list raises `TypeError`
(`len(None)` at line 127). -/
def build_env_patch_for_pod (pod : Pod) (vars : List EnvVar) :
    Except PyErr (List PatchOp) :=
  match pod.spec with
  | .null => .error .attributeError
  | sf =>
    match (Field.orElse sf ⟨.absent, .absent⟩).containers with
    | .null => .error .typeError
    | cf => envPodOps vars 0 (fieldListD cf)

/-! ### build_files_volume_patch_for_pod -/

/-- The volume the webhook injects. -/
def filesVolume : Volume := ⟨FILES_VOLUME_NAME, some FILES_CONFIGMAP_NAME⟩

/-- Volume step (webhook.py lines 189-216): one add if the auxiliary
volume is missing, appending or creating the array. -/
def volumeOps (vols : List Volume) : List PatchOp :=
  if vols.any (fun v => v.name == FILES_VOLUME_NAME) then []
  else if !vols.isEmpty then [⟨.add, .volumesTail, .volume filesVolume⟩]
  else [⟨.add, .volumesRoot, .volList [filesVolume]⟩]

/-- Mount records still to add for one container (webhook.py lines 222-232). -/
def mountRecords (mounts : List VolumeMount) : List VolumeMount :=
  FILE_KEYS.filterMap (fun f =>
    if mounts.any (fun m => m.mountPath == f.mountPath) then none
    else some (⟨FILES_VOLUME_NAME, f.mountPath, some f.key, some true⟩ : VolumeMount))

/-- Mount ops for one container (webhook.py lines 233-248). -/
def mountContainerOps (i : Nat) (mounts : List VolumeMount) : List PatchOp :=
  let addList := mountRecords mounts
  if addList.isEmpty then []
  else if !mounts.isEmpty then
    addList.map (fun m => ⟨.add, .mountsTail i, .mount m⟩)
  else [⟨.add, .mountsRoot i, .mountList addList⟩]

/-- The container loop of the mount step; a `null` volumeMounts list raises
`TypeError` (set comprehension over `None`, line 221). -/
def mountPodOps : Nat → List Container → Except PyErr (List PatchOp)
  | _, [] => .ok []
  | i, c :: rest =>
    match c.volumeMounts with
    | .null => .error .typeError
    | mf =>
      match mountPodOps (i + 1) rest with
      | .error e => .error e
      | .ok more => .ok (mountContainerOps i (fieldListD mf) ++ more)

/-- `build_files_volume_patch_for_pod` (webhook.py lines 183-251).
Here `spec = pod.get("spec", {}) or {}` does absorb `null`, but `null`
`volumes` or `containers` lists raise `TypeError` when iterated
(lines 190 and 219). -/
def build_files_volume_patch_for_pod (pod : Pod) :
    Except PyErr (List PatchOp) :=
  match (Field.orElse pod.spec ⟨.absent, .absent⟩).volumes with
  | .null => .error .typeError
  | vf =>
    match (Field.orElse pod.spec ⟨.absent, .absent⟩).containers with
    | .null => .error .typeError
    | cf =>
      match mountPodOps 0 (fieldListD cf) with
      | .error e => .error e
      | .ok mops => .ok (volumeOps (fieldListD vf) ++ mops)

/-! ### The mutate handler -/

def emptyKind : KindRec := ⟨.absent, .absent⟩

def emptyReq : Req := ⟨none, .absent, none, .absent, .absent⟩

def emptyPod : Pod := ⟨.absent, .absent⟩

def emptyMeta : PodMeta := ⟨.absent, .absent, .absent⟩

/-- `request.get_json(force=True, silent=True) or {}`: an unparseable body
(`none`) becomes the empty review object. -/
def reviewOf (body : Option Review) : Review := body.getD ⟨.absent⟩

def reqF (body : Option Review) : Field Req := (reviewOf body).request

/-- `req = review.get("request", {})` (no `or {}`; a `null` request is the
Python value `None` and later `.get` calls on it raise). -/
def reqOf (body : Option Review) : Req :=
  match reqF body with
  | .val r => r
  | _ => emptyReq

def kindF (body : Option Review) : Field KindRec := (reqOf body).kind

def kindOf (body : Option Review) : KindRec :=
  match kindF body with
  | .val k => k
  | _ => emptyKind

/-- `req.get("namespace", "")`: an absent key resolves to `""`, an explicit
`null` stays Python `None` (which then compares unequal to any string). -/
def nsOf (body : Option Review) : Option String :=
  match (reqOf body).ns with
  | .val s => some s
  | .absent => some ""
  | .null => none

/-- `obj = req.get("object", {}) or {}`. -/
def objOf (body : Option Review) : Pod := Field.orElse (reqOf body).object emptyPod

/-- `metadata = obj.get("metadata", {}) or {}`. -/
def mdOf (body : Option Review) : PodMeta := Field.orElse (objOf body).metadata emptyMeta

/-- `labels = metadata.get("labels", {}) or {}`. -/
def labelsOf (body : Option Review) : List (String × String) :=
  Field.orElse (mdOf body).labels []

/-- `annotations = metadata.get("annotations", {}) or {}`. -/
def annsOf (body : Option Review) : List (String × String) :=
  Field.orElse (mdOf body).annotations []

def reqUid (body : Option Review) : Option String := (reqOf body).uid

/-- `env_vars_to_inject` (webhook.py lines 337-343): the primary injected
variable followed by the annotation-derived ones; never de-duplicated. -/
def injectionList (cfg : Config) (anns : List (String × String)) : List EnvVar :=
  ⟨cfg.injectEnvName, cfg.injectEnvValue⟩ ::
    extract_profiler_env_from_annotations anns

/-- Final stage of `mutate` once namespace and labels matched (webhook.py
lines 329-349): the `INJECT_ENV_NAME` gate, then both builders, env ops
first. -/
def matchedStage (cfg : Config) (body : Option Review) :
    Except PyErr (List PatchOp) :=
  if cfg.injectEnvName = "" then .ok []
  else
    match build_env_patch_for_pod (objOf body) (injectionList cfg (annsOf body)) with
    | .error e => .error e
    | .ok envOps =>
      match build_files_volume_patch_for_pod (objOf body) with
      | .error e => .error e
      | .ok fileOps => .ok (envOps ++ fileOps)

/-- The decision core of the `mutate` handler (webhook.py lines 259-351):
every early `return jsonify(response_body)` is `.ok []` (allow, no patch),
the matched path returns the assembled patch-op list, and the Python
exception paths are the `.error` cases.  The `null`-kind error is the
debug log at line 267 (`req.get("kind", {}).get("group", "")` on `None`);
the `null`-request error is `req.get("uid")` at line 263. -/
def mutateOps (cfg : Config) (body : Option Review) :
    Except PyErr (List PatchOp) :=
  if reqF body = Field.null then .error .attributeError
  else if kindF body = Field.null then .error .attributeError
  else if (kindOf body).kind ≠ Field.val "Pod" then .ok []
      else if cfg.targetNamespace = "" then .ok []
      else if nsOf body ≠ some cfg.targetNamespace then .ok []
      else if cfg.targetLabels ≠ "" then
        if parse_target_labels cfg.targetLabels = [] then .ok []
        else if matches_any_label (labelsOf body) (parse_target_labels cfg.targetLabels) = false
          then .ok []
        else matchedStage cfg body
      else if cfg.targetLabelKey ≠ "" ∧ cfg.targetLabelValue ≠ "" then
        if List.lookup cfg.targetLabelKey (labelsOf body) ≠ some cfg.targetLabelValue
          then .ok []
        else matchedStage cfg body
      else .ok []

/-! ### Response assembly: JSON serialization and base64 -/

def hexDigit (n : Nat) : Char :=
  if n < 10 then Char.ofNat ('0'.toNat + n) else Char.ofNat ('a'.toNat + n - 10)

def hex4 (n : Nat) : String :=
  String.mk [hexDigit (n / 4096 % 16), hexDigit (n / 256 % 16),
             hexDigit (n / 16 % 16), hexDigit (n % 16)]

/-- One character of `json.dumps` string output (default `ensure_ascii`). -/
def jsonEscapeChar (c : Char) : String :=
  if c = '"' then "\\\""
  else if c = '\\' then "\\\\"
  else if c = '\n' then "\\n"
  else if c = '\r' then "\\r"
  else if c = '\t' then "\\t"
  else if c.toNat = 8 then "\\b"
  else if c.toNat = 12 then "\\f"
  else if c.toNat < 32 then "\\u" ++ hex4 c.toNat
  else if c.toNat < 127 then String.mk [c]
  else if c.toNat ≤ 65535 then "\\u" ++ hex4 c.toNat
  else
    "\\u" ++ hex4 (55296 + (c.toNat - 65536) / 1024) ++
    "\\u" ++ hex4 (56320 + (c.toNat - 65536) % 1024)

def jstr (s : String) : String :=
  "\"" ++ String.join (s.data.map jsonEscapeChar) ++ "\""

def jsonOfEnvVar (e : EnvVar) : String :=
  "\x7b\"name\": " ++ jstr e.name ++ ", \"value\": " ++ jstr e.value ++ "\x7d"

def jsonOfVolume (v : Volume) : String :=
  "\x7b\"name\": " ++ jstr v.name ++ ", \"configMap\": \x7b\"name\": " ++
    jstr (v.configMapName.getD "") ++ "\x7d\x7d"

def jsonOfMount (m : VolumeMount) : String :=
  "\x7b\"name\": " ++ jstr m.name ++ ", \"mountPath\": " ++ jstr m.mountPath ++
    ", \"subPath\": " ++ jstr (m.subPath.getD "") ++ ", \"readOnly\": " ++
    (if m.readOnly.getD false then "true" else "false") ++ "\x7d"

def jsonOfPValue : PValue → String
  | .str s => jstr s
  | .env e => jsonOfEnvVar e
  | .envList l => "[" ++ String.intercalate ", " (l.map jsonOfEnvVar) ++ "]"
  | .volume v => jsonOfVolume v
  | .volList l => "[" ++ String.intercalate ", " (l.map jsonOfVolume) ++ "]"
  | .mount m => jsonOfMount m
  | .mountList l => "[" ++ String.intercalate ", " (l.map jsonOfMount) ++ "]"

def jsonOfOp (o : PatchOp) : String :=
  "\x7b\"op\": " ++ jstr (match o.op with | .add => "add" | .replace => "replace") ++
    ", \"path\": " ++ jstr o.path.render ++
    ", \"value\": " ++ jsonOfPValue o.value ++ "\x7d"

/-- `json.dumps(patch_ops)` with default separators. -/
def jsonDumps (ops : List PatchOp) : String :=
  "[" ++ String.intercalate ", " (ops.map jsonOfOp) ++ "]"

/-- UTF-8 bytes of one character (RFC 3629), as `Nat`s. -/
def utf8Bytes (c : Char) : List Nat :=
  let n := c.toNat
  if n < 128 then [n]
  else if n < 2048 then [192 + n / 64, 128 + n % 64]
  else if n < 65536 then [224 + n / 4096, 128 + n / 64 % 64, 128 + n % 64]
  else [240 + n / 262144, 128 + n / 4096 % 64, 128 + n / 64 % 64, 128 + n % 64]

def b64Alphabet : List Char :=
  "ABCDEFGHIJKLMNOPQRSTUVWXYZabcdefghijklmnopqrstuvwxyz0123456789+/".data

def b64Char (n : Nat) : Char := b64Alphabet.getD n 'A'

/-- Standard base64 with padding over a byte list. -/
def b64Bytes : List Nat → List Char
  | [] => []
  | [a] => [b64Char (a / 4), b64Char (a % 4 * 16), '=', '=']
  | [a, b] => [b64Char (a / 4), b64Char (a % 4 * 16 + b / 16), b64Char (b % 16 * 4), '=']
  | a :: b :: c :: rest =>
    b64Char (a / 4) :: b64Char (a % 4 * 16 + b / 16) ::
      b64Char (b % 16 * 4 + c / 64) :: b64Char (c % 64) :: b64Bytes rest

/-- `base64.b64encode(s.encode("utf-8")).decode("utf-8")`. -/
def b64encode (s : String) : String :=
  String.mk (b64Bytes (s.data.flatMap utf8Bytes))

/-! ### Sequential application of the emitted patch (RFC 6902)

`applyOp` applies one `add`/`replace` operation to a pod, restricted to the
JSON-Pointer shapes this webhook emits (`PPath`).  Following RFC 6902:
`add` on an object member creates or replaces it, but the member's parent
must exist; `add` with a `-` index appends to an existing array; `replace`
requires the target location to exist. -/

/-- Replace the element at index `j` (out-of-range leaves the list as is;
all callers establish the bound first). -/
def modifyIdx : List α → Nat → (α → α) → List α
  | [], _, _ => []
  | x :: xs, 0, f => f x :: xs
  | x :: xs, j + 1, f => x :: modifyIdx xs j f

def applyOp (p : Pod) (o : PatchOp) : Option Pod :=
  match p.spec with
  | .val s =>
    match o.op, o.path, o.value with
    | .add, .volumesRoot, .volList l =>
      some { p with spec := .val { s with volumes := .val l } }
    | .add, .volumesTail, .volume v =>
      match s.volumes with
      | .val vs => some { p with spec := .val { s with volumes := .val (vs ++ [v]) } }
      | _ => none
    | .add, .containerEnvRoot i, .envList l =>
      match s.containers with
      | .val cs =>
        if i < cs.length then
          some { p with spec := .val { s with
            containers := .val (modifyIdx cs i (fun c => { c with env := .val l })) } }
        else none
      | _ => none
    | .add, .containerEnvTail i, .env e =>
      match s.containers with
      | .val cs =>
        match cs[i]? with
        | some c =>
          match c.env with
          | .val es =>
            some { p with spec := .val { s with
              containers := .val (modifyIdx cs i (fun c => { c with env := .val (es ++ [e]) })) } }
          | _ => none
        | none => none
      | _ => none
    | .replace, .containerEnvValueAt i j, .str v =>
      match s.containers with
      | .val cs =>
        match cs[i]? with
        | some c =>
          match c.env with
          | .val es =>
            if j < es.length then
              some { p with spec := .val { s with
                containers := .val (modifyIdx cs i (fun c => { c with
                  env := .val (modifyIdx es j (fun x => { x with value := v })) })) } }
            else none
          | _ => none
        | none => none
      | _ => none
    | .add, .mountsRoot i, .mountList l =>
      match s.containers with
      | .val cs =>
        if i < cs.length then
          some { p with spec := .val { s with
            containers := .val (modifyIdx cs i (fun c => { c with volumeMounts := .val l })) } }
        else none
      | _ => none
    | .add, .mountsTail i, .mount m =>
      match s.containers with
      | .val cs =>
        match cs[i]? with
        | some c =>
          match c.volumeMounts with
          | .val ms =>
            some { p with spec := .val { s with
              containers := .val (modifyIdx cs i (fun c => { c with
                volumeMounts := .val (ms ++ [m]) })) } }
          | _ => none
        | none => none
      | _ => none
    | _, _, _ => none
  | _ => none

/-- Apply a patch document operation by operation (sequential RFC 6902
application; any failing operation fails the whole document). -/
def applyOps : Pod → List PatchOp → Option Pod
  | p, [] => some p
  | p, o :: rest =>
    match applyOp p o with
    | some p' => applyOps p' rest
    | none => none

/-- Re-submission of the same request with the (patched) pod object
substituted in: models the second admission request of the idempotence
scenario. -/
def withObject (body : Option Review) (p : Pod) : Option Review :=
  some ⟨.val { reqOf body with object := .val p }⟩

/-- The AdmissionResponse fields the handler populates. -/
structure MutResponse where
  uid : Option String
  allowed : Bool
  patchType : Option String
  patch : Option String
deriving DecidableEq, Repr

def defaultResponse (body : Option Review) : MutResponse :=
  ⟨reqUid body, true, none, none⟩

/-- The `mutate` handler (webhook.py lines 259-359): run the decision core;
if any ops were produced attach `patchType`/`patch` (base64 of the JSON
patch document), else return the default allow-without-patch response. -/
def mutate (cfg : Config) (body : Option Review) : Except PyErr MutResponse :=
  match mutateOps cfg body with
  | .error e => .error e
  | .ok ops =>
    if ops.isEmpty then .ok (defaultResponse body)
    else .ok { defaultResponse body with
                patchType := some "JSONPatch"
                patch := some (b64encode (jsonDumps ops)) }

/-! ### The decision gates of the handler, as predicates -/

/-- The label check of `mutate` succeeds: either multi-label mode applies
and some configured pair matches, or multi-label mode is off and the legacy
pair is configured and matches. -/
def LabelGate (cfg : Config) (body : Option Review) : Prop :=
  (cfg.targetLabels ≠ "" ∧ parse_target_labels cfg.targetLabels ≠ []
    ∧ matches_any_label (labelsOf body) (parse_target_labels cfg.targetLabels) = true)
  ∨ (cfg.targetLabels = "" ∧ cfg.targetLabelKey ≠ "" ∧ cfg.targetLabelValue ≠ ""
    ∧ List.lookup cfg.targetLabelKey (labelsOf body) = some cfg.targetLabelValue)

/-- All gates between the kind check and the builders succeed: the request
is for a Pod, the namespace is configured and matches, the labels match,
and the injected name is configured. -/
def GatesRest (cfg : Config) (body : Option Review) : Prop :=
  (kindOf body).kind = Field.val "Pod"
  ∧ cfg.targetNamespace ≠ "" ∧ nsOf body = some cfg.targetNamespace
  ∧ LabelGate cfg body ∧ cfg.injectEnvName ≠ ""

instance (cfg : Config) (body : Option Review) : Decidable (LabelGate cfg body) := by
  unfold LabelGate; infer_instance

instance (cfg : Config) (body : Option Review) : Decidable (GatesRest cfg body) := by
  unfold GatesRest; infer_instance

/-! ### Derived pod transforms (used to state what applying the patch does) -/

/-- The env entries a patch introduces (tail-appends and created lists). -/
def addedEnvEntries (ops : List PatchOp) : List EnvVar :=
  ops.flatMap (fun o =>
    match o.op, o.path, o.value with
    | .add, .containerEnvTail _, .env e => [e]
    | .add, .containerEnvRoot _, .envList l => l
    | _, _, _ => [])

/-- Sequential effect of the replace operations of one container's env patch:
for each injected variable, in order, overwrite the value at the index where
the name first occurs in the container's original env list. -/
def applyRepsFrom (acc orig vars : List EnvVar) : List EnvVar :=
  vars.foldl (fun a ev =>
    match orig.findIdx? (fun it => it.name == ev.name) with
    | some j => modifyIdx a j (fun x => { x with value := ev.value })
    | none => a) acc

/-- The variables queued for append by one container's env patch. -/
def toAddOf (orig vars : List EnvVar) : List EnvVar :=
  vars.filter (fun ev => (orig.findIdx? (fun it => it.name == ev.name)).isNone)

/-- The env list of a container after its env patch is applied. -/
def newEnvList (orig vars : List EnvVar) : List EnvVar :=
  applyRepsFrom orig orig vars ++ toAddOf orig vars

/-- A container after its env patch is applied. -/
def patchEnv (vars : List EnvVar) (c : Container) : Container :=
  { c with env := .val (newEnvList (fieldListD c.env) vars) }

/-- A container after its mount patch is applied. -/
def patchMounts (c : Container) : Container :=
  { c with volumeMounts :=
      Field.val (fieldListD c.volumeMounts ++ mountRecords (fieldListD c.volumeMounts)) }

/-- The volume list after the volume patch is applied. -/
def newVols (vols : List Volume) : List Volume :=
  if vols.any (fun v => v.name == FILES_VOLUME_NAME) then vols
  else vols ++ [filesVolume]

/-! ### Concrete sample requests (used by witnesses and counterexamples) -/

/-- Multi-label config targeting namespace `vllm`, label `app=vllm`,
injecting `XPROF=1`. -/
def cfgA : Config := ⟨"vllm", "", "", "app=vllm", "XPROF", "1"⟩

def contA : Container := ⟨.val "main", .absent, .absent⟩

def podA : Pod :=
  ⟨.val ⟨.val "p1", .val [("app", "vllm")], .absent⟩,
   .val ⟨.val [contA], .absent⟩⟩

def bodyA : Review :=
  ⟨.val ⟨some "uid-1", .val ⟨.absent, .val "Pod"⟩, some "CREATE", .val "vllm", .val podA⟩⟩

/-- The patch the engine produces for `podA` under `cfgA`. -/
def opsA : List PatchOp :=
  [⟨.add, .containerEnvRoot 0, .envList [⟨"XPROF", "1"⟩]⟩,
   ⟨.add, .volumesRoot, .volList [filesVolume]⟩,
   ⟨.add, .mountsRoot 0, .mountList
     [⟨"env-injector-files", "/home/vllm/profiler/sitecustomize.py",
       some "sitecustomize.py", some true⟩,
      ⟨"env-injector-files", "/home/vllm/profiler/profiler_config.yaml",
       some "profiler_config.yaml", some true⟩]⟩]

/-- `podA` after `opsA` is applied. -/
def podA1 : Pod :=
  ⟨.val ⟨.val "p1", .val [("app", "vllm")], .absent⟩,
   .val ⟨.val [⟨.val "main", .val [⟨"XPROF", "1"⟩], .val
     [⟨"env-injector-files", "/home/vllm/profiler/sitecustomize.py",
       some "sitecustomize.py", some true⟩,
      ⟨"env-injector-files", "/home/vllm/profiler/profiler_config.yaml",
       some "profiler_config.yaml", some true⟩]⟩],
    .val [filesVolume]⟩⟩

/-- Config whose primary injected name collides with the profiler
annotation-derived name `VLLM_PROFILER_RANGES`. -/
def cfgB : Config := ⟨"vllm", "", "", "app=vllm", "VLLM_PROFILER_RANGES", "A"⟩

def podB : Pod :=
  ⟨.val ⟨.val "p2", .val [("app", "vllm")], .val [("vllm.profiler/ranges", "B")]⟩,
   .val ⟨.val [contA], .absent⟩⟩

def bodyB : Review :=
  ⟨.val ⟨some "uid-2", .val ⟨.absent, .val "Pod"⟩, some "CREATE", .val "vllm", .val podB⟩⟩

/-- The patch the engine produces for `podB` under `cfgB`: the env list is
created with `VLLM_PROFILER_RANGES` twice. -/
def opsB : List PatchOp :=
  [⟨.add, .containerEnvRoot 0, .envList
     [⟨"VLLM_PROFILER_RANGES", "A"⟩, ⟨"VLLM_PROFILER_RANGES", "B"⟩]⟩,
   ⟨.add, .volumesRoot, .volList [filesVolume]⟩,
   ⟨.add, .mountsRoot 0, .mountList
     [⟨"env-injector-files", "/home/vllm/profiler/sitecustomize.py",
       some "sitecustomize.py", some true⟩,
      ⟨"env-injector-files", "/home/vllm/profiler/profiler_config.yaml",
       some "profiler_config.yaml", some true⟩]⟩]

/-- `podB` after `opsB` is applied. -/
def podB1 : Pod :=
  ⟨.val ⟨.val "p2", .val [("app", "vllm")], .val [("vllm.profiler/ranges", "B")]⟩,
   .val ⟨.val [⟨.val "main",
     .val [⟨"VLLM_PROFILER_RANGES", "A"⟩, ⟨"VLLM_PROFILER_RANGES", "B"⟩], .val
     [⟨"env-injector-files", "/home/vllm/profiler/sitecustomize.py",
       some "sitecustomize.py", some true⟩,
      ⟨"env-injector-files", "/home/vllm/profiler/profiler_config.yaml",
       some "profiler_config.yaml", some true⟩]⟩],
    .val [filesVolume]⟩⟩

/-- The response the engine produces for `podA` under `cfgA`. -/
def respA1 : MutResponse :=
  ⟨some "uid-1", true, some "JSONPatch", some (b64encode (jsonDumps opsA))⟩

/-- The response the engine produces when `podA1` (the already-patched pod)
is re-submitted: one redundant replace, still serialized and attached. -/
def respA2 : MutResponse :=
  ⟨some "uid-1", true, some "JSONPatch",
   some (b64encode (jsonDumps [⟨.replace, .containerEnvValueAt 0 0, .str "1"⟩]))⟩

/-- env list of the first container (inspection helper for counterexamples). -/
def envOfFirstContainer (p : Pod) : List EnvVar :=
  match p.spec with
  | .val s =>
    match fieldListD s.containers with
    | c :: _ => fieldListD c.env
    | [] => []
  | _ => []

/-- A pod whose only container carries `"env": null`. -/
def podC : Pod :=
  ⟨.val ⟨.val "p3", .val [("app", "vllm")], .absent⟩,
   .val ⟨.val [⟨.val "main", .null, .absent⟩], .absent⟩⟩

def bodyC : Review :=
  ⟨.val ⟨some "uid-3", .val ⟨.absent, .val "Pod"⟩, some "CREATE", .val "vllm", .val podC⟩⟩

/-! ## Basic characterization lemmas -/

theorem envScan_eq (i : Nat) (orig vars : List EnvVar) :
    envScan i orig vars =
      (vars.filterMap (fun ev => (orig.findIdx? (fun it => it.name == ev.name)).map
         (fun j => PatchOp.mk .replace (.containerEnvValueAt i j) (.str ev.value))),
       vars.filter (fun ev => (orig.findIdx? (fun it => it.name == ev.name)).isNone)) := by
  induction vars with
  | nil => rfl
  | cons ev rest ih =>
    simp only [envScan, ih]
    cases h : orig.findIdx? (fun it => it.name == ev.name) <;>
      simp [List.filterMap_cons, List.filter_cons, h]

theorem addedEnvEntries_scan (i : Nat) (orig vars : List EnvVar) :
    addedEnvEntries (envScan i orig vars).1 = [] := by
  induction vars with
  | nil => rfl
  | cons ev rest ih =>
    simp only [envScan]
    cases h : orig.findIdx? (fun it => it.name == ev.name) <;>
      simpa [addedEnvEntries, h] using ih

theorem addedEnvEntries_append (a b : List PatchOp) :
    addedEnvEntries (a ++ b) = addedEnvEntries a ++ addedEnvEntries b := by
  simp [addedEnvEntries]

theorem addedEnvEntries_tailMap (i : Nat) (l : List EnvVar) :
    addedEnvEntries (l.map (fun ev => ⟨.add, .containerEnvTail i, .env ev⟩)) = l := by
  induction l with
  | nil => rfl
  | cons x xs ih => simpa [addedEnvEntries] using ih

/-- The env entries an `envContainerOps` patch introduces are exactly the
queued-for-append ones. -/
theorem addedEnvEntries_envContainerOps (i : Nat) (orig vars : List EnvVar) :
    addedEnvEntries (envContainerOps i orig vars) = (envScan i orig vars).2 := by
  unfold envContainerOps
  rw [addedEnvEntries_append, addedEnvEntries_scan]
  by_cases hq : (envScan i orig vars).2.isEmpty
  · simp_all [addedEnvEntries, List.isEmpty_iff]
  · by_cases ho : orig.isEmpty
    · simp [hq, ho, addedEnvEntries]
    · simp [hq, ho, addedEnvEntries_tailMap]

theorem envScan_snd (i : Nat) (orig vars : List EnvVar) :
    (envScan i orig vars).2 = toAddOf orig vars := by
  rw [envScan_eq]; rfl

theorem extractFromTable_cons_some (s n : String) (t : List (String × String))
    (anns : List (String × String)) (v : String)
    (h : List.lookup (profiler_ann_key_base ++ s) anns = some v) :
    extractFromTable ((s, n) :: t) anns = ⟨n, v⟩ :: extractFromTable t anns := by
  simp [extractFromTable, List.filterMap_cons, h]

/-- Rows whose env name differs from `n` contribute nothing to the
`name == n` slice of the extraction. -/
theorem extract_filter_nil (t : List (String × String))
    (anns : List (String × String)) (n : String) (h : ∀ r ∈ t, r.2 ≠ n) :
    (extractFromTable t anns).filter (fun e => e.name == n) = [] := by
  induction t with
  | nil => rfl
  | cons r rest ih =>
    have hr : (r.2 == n) = false := by
      simpa using h r (List.mem_cons_self r rest)
    have ih' := ih (fun r' hr' => h r' (List.mem_cons_of_mem r hr'))
    cases hl : List.lookup (profiler_ann_key_base ++ r.1) anns with
    | none => simpa [extractFromTable, List.filterMap_cons, hl] using ih'
    | some w =>
      simpa [extractFromTable, List.filterMap_cons, hl, List.filter_cons, hr] using ih'

/-- A present annotation whose table row names `n` (the table's env names
being distinct) contributes exactly one entry named `n`, carrying the
annotation's literal value. -/
theorem extract_filter_single (t : List (String × String))
    (anns : List (String × String)) (s n v : String)
    (hmem : (s, n) ∈ t) (hnd : (t.map Prod.snd).Nodup)
    (hv : List.lookup (profiler_ann_key_base ++ s) anns = some v) :
    (extractFromTable t anns).filter (fun e => e.name == n) = [⟨n, v⟩] := by
  induction t with
  | nil => cases hmem
  | cons r rest ih =>
    have hnd' : (rest.map Prod.snd).Nodup := (List.nodup_cons.mp hnd).2
    have hrn : r.2 ∉ rest.map Prod.snd := (List.nodup_cons.mp hnd).1
    rcases List.mem_cons.mp hmem with heq | hrest
    · subst heq
      have hrest0 : ∀ r' ∈ rest, r'.2 ≠ n := by
        intro r' hr' hcon
        have h1 : r'.2 ∈ rest.map Prod.snd := List.mem_map_of_mem Prod.snd hr'
        rw [hcon] at h1
        exact hrn h1
      simpa [extractFromTable, List.filterMap_cons, hv, List.filter_cons] using
        extract_filter_nil rest anns n hrest0
    · have hn : n ∈ rest.map Prod.snd := by
        simpa using List.mem_map_of_mem Prod.snd hrest
      have hrne : (r.2 == n) = false := by
        have : r.2 ≠ n := by
          intro hcon
          rw [hcon] at hrn
          exact hrn hn
        simpa using this
      cases hl : List.lookup (profiler_ann_key_base ++ r.1) anns with
      | none =>
        simpa [extractFromTable, List.filterMap_cons, hl] using ih hrest hnd'
      | some w =>
        simpa [extractFromTable, List.filterMap_cons, hl, List.filter_cons, hrne] using
          ih hrest hnd'

/-! ## Claim theorems -/

/-- C6: for every container and injection list, the env patch builder emits
one replace per injected variable whose name already occurs in the original
env list, at that entry's positional index and targeting only its value
(never an add); the remaining variables are queued in order and, if any,
emitted as one tail-append add each when the env list is non-empty, or as a
single add creating the env list with the whole queued set when it is
empty/missing. -/
theorem c6_env_builder (i : Nat) (orig vars : List EnvVar) :
    envContainerOps i orig vars =
      vars.filterMap (fun ev => (orig.findIdx? (fun it => it.name == ev.name)).map
        (fun j => PatchOp.mk .replace (.containerEnvValueAt i j) (.str ev.value)))
      ++ (if (toAddOf orig vars).isEmpty then []
          else if orig.isEmpty then
            [⟨.add, .containerEnvRoot i, .envList (toAddOf orig vars)⟩]
          else (toAddOf orig vars).map
            (fun ev => ⟨.add, .containerEnvTail i, .env ev⟩)) := by
  unfold envContainerOps toAddOf
  rw [envScan_eq]
  by_cases h1 : (vars.filter
      (fun ev => (orig.findIdx? (fun it => it.name == ev.name)).isNone)).isEmpty <;>
    by_cases h2 : orig.isEmpty <;> simp [h1, h2]

/-- C4 (counterexample): the pod annotated `vllm.profiler/ranges: "50-100"`
contributes the env var `VLLM_PROFILER_RANGES=50-100`; no contributed
variable is named `RANGES`, contrary to the claim's stated name. -/
theorem c4_counterexample :
    extract_profiler_env_from_annotations [("vllm.profiler/ranges", "50-100")]
      = [⟨"VLLM_PROFILER_RANGES", "50-100"⟩]
    ∧ ∀ e ∈ extract_profiler_env_from_annotations [("vllm.profiler/ranges", "50-100")],
        e.name ≠ "RANGES" :=
  ⟨rfl, by decide⟩

/-- C4 (amended): a pod annotated `vllm.profiler/ranges` with value `v`
contributes exactly one extra injected variable, named
`VLLM_PROFILER_RANGES` with value `v` unmodified; it precedes every other
annotation-derived variable (the `ranges` row is first in the table), and
the remaining variables are exactly those of the remaining table rows, so
its presence is order-stable relative to the other annotations. -/
theorem c4_amended (anns : List (String × String)) (v : String)
    (h : List.lookup "vllm.profiler/ranges" anns = some v) :
    extract_profiler_env_from_annotations anns
      = ⟨"VLLM_PROFILER_RANGES", v⟩ :: extractFromTable (annotation_to_env.drop 1) anns
    ∧ (extract_profiler_env_from_annotations anns).filter
        (fun e => e.name == "VLLM_PROFILER_RANGES") = [⟨"VLLM_PROFILER_RANGES", v⟩] := by
  have h1 : extract_profiler_env_from_annotations anns
      = ⟨"VLLM_PROFILER_RANGES", v⟩ :: extractFromTable (annotation_to_env.drop 1) anns :=
    extractFromTable_cons_some "ranges" "VLLM_PROFILER_RANGES"
      (annotation_to_env.drop 1) anns v h
  refine ⟨h1, ?_⟩
  have h2 := extract_filter_nil (annotation_to_env.drop 1) anns "VLLM_PROFILER_RANGES"
    (by decide)
  rw [h1, List.filter_cons, if_pos (by rfl), h2]

/-- C4 amended, witnessed at the concrete annotated pod of the claim. -/
theorem c4_amended_witness :
    extract_profiler_env_from_annotations [("vllm.profiler/ranges", "50-100")]
      = ⟨"VLLM_PROFILER_RANGES", "50-100"⟩ ::
          extractFromTable (annotation_to_env.drop 1) [("vllm.profiler/ranges", "50-100")]
    ∧ (extract_profiler_env_from_annotations [("vllm.profiler/ranges", "50-100")]).filter
        (fun e => e.name == "VLLM_PROFILER_RANGES")
        = [⟨"VLLM_PROFILER_RANGES", "50-100"⟩] :=
  c4_amended [("vllm.profiler/ranges", "50-100")] "50-100" rfl

/-- C10: the injection list is not de-duplicated: when the configured
primary name equals the env name of a present profiler annotation, the list
carries that name twice, and for a container whose original env list lacks
the name the patch introduces two env entries with that name. -/
theorem c10_duplicate_injection (cfg : Config) (anns : List (String × String))
    (s v : String) (i : Nat) (orig : List EnvVar)
    (hrow : (s, cfg.injectEnvName) ∈ annotation_to_env)
    (hann : List.lookup (profiler_ann_key_base ++ s) anns = some v)
    (horig : ∀ e ∈ orig, e.name ≠ cfg.injectEnvName) :
    ((injectionList cfg anns).filter
        (fun e => e.name == cfg.injectEnvName)).length = 2
    ∧ ((addedEnvEntries (envContainerOps i orig (injectionList cfg anns))).filter
        (fun e => e.name == cfg.injectEnvName)).length = 2 := by
  have hext : (extract_profiler_env_from_annotations anns).filter
      (fun e => e.name == cfg.injectEnvName) = [⟨cfg.injectEnvName, v⟩] :=
    extract_filter_single annotation_to_env anns s cfg.injectEnvName v hrow (by decide) hann
  have hinj : (injectionList cfg anns).filter (fun e => e.name == cfg.injectEnvName)
      = [⟨cfg.injectEnvName, cfg.injectEnvValue⟩, ⟨cfg.injectEnvName, v⟩] := by
    simp [injectionList, extract_profiler_env_from_annotations] at hext ⊢
    simp [List.filter_cons, hext]
  have hfind : orig.findIdx? (fun it => it.name == cfg.injectEnvName) = none :=
    List.findIdx?_eq_none_iff.mpr (fun x hx => by simpa using horig x hx)
  refine ⟨by rw [hinj]; rfl, ?_⟩
  rw [addedEnvEntries_envContainerOps, envScan_snd, toAddOf, List.filter_comm, hinj]
  simp [List.filter_cons, hfind]

/-- C10 witnessed: primary name `VLLM_PROFILER_RANGES` with the `ranges`
annotation present on the pod and an empty original env list. -/
theorem c10_duplicate_injection_witness :
    ((injectionList cfgB [("vllm.profiler/ranges", "B")]).filter
        (fun e => e.name == cfgB.injectEnvName)).length = 2
    ∧ ((addedEnvEntries (envContainerOps 0 []
          (injectionList cfgB [("vllm.profiler/ranges", "B")]))).filter
        (fun e => e.name == cfgB.injectEnvName)).length = 2 :=
  c10_duplicate_injection cfgB [("vllm.profiler/ranges", "B")] "ranges" "B" 0 []
    (by decide) rfl (by decide)

/-- C3 (code bug): a matching pod whose container carries `"env": null`
makes the handler raise `TypeError` (Python `len(None)` in
`build_env_patch_for_pod`), so Flask answers 500 instead of the claimed
allow-without-patch response. -/
theorem c3_code_bug : mutate cfgA (some bodyC) = .error PyErr.typeError := rfl

/-- C1 (counterexample): `podA1` is exactly the pod obtained by applying
the engine's own first-run patch for `podA`, yet the second run produces a
non-empty patch (one redundant replace) and the second response carries
`patchType`/`patch` — not the claimed empty patch and absent fields. -/
theorem c1_counterexample :
    mutateOps cfgA (some bodyA) = .ok opsA
    ∧ applyOps podA opsA = some podA1
    ∧ mutateOps cfgA (withObject (some bodyA) podA1)
        = .ok [⟨.replace, .containerEnvValueAt 0 0, .str "1"⟩]
    ∧ mutate cfgA (withObject (some bodyA) podA1) = .ok respA2
    ∧ respA2.patchType = some "JSONPatch" ∧ respA2.patch ≠ none :=
  ⟨rfl, rfl, rfl, rfl, rfl, by simp [respA2]⟩

/-- C2 (counterexample): for the matching pod `podB` (annotated `ranges`,
primary injected name equal to `VLLM_PROFILER_RANGES`), applying the
produced patch yields a container whose env list carries the injected name
twice — not exactly once as claimed. -/
theorem c2_counterexample :
    mutateOps cfgB (some bodyB) = .ok opsB
    ∧ applyOps podB opsB = some podB1
    ∧ ((envOfFirstContainer podB1).filter
        (fun e => e.name == "VLLM_PROFILER_RANGES")).length = 2 :=
  ⟨rfl, rfl, rfl⟩

/-- The decision core, re-expressed through the gate predicates: a `null`
request or kind raises, a pod passing all gates reaches the two builders
(env ops first), anything else is allow-without-patch. -/
theorem mutateOps_eq (cfg : Config) (body : Option Review) :
    mutateOps cfg body =
      if reqF body = Field.null then .error .attributeError
      else if kindF body = Field.null then .error .attributeError
      else if GatesRest cfg body then
        (match build_env_patch_for_pod (objOf body) (injectionList cfg (annsOf body)) with
         | .error e => .error e
         | .ok envOps =>
           match build_files_volume_patch_for_pod (objOf body) with
           | .error e => .error e
           | .ok fileOps => .ok (envOps ++ fileOps))
      else .ok [] := by
  unfold mutateOps matchedStage GatesRest LabelGate
  split_ifs <;> first | rfl | tauto | simp_all

/-- C9: for every admission request (parsed into the data model, i.e. with
non-`null` request and kind members) whose namespace differs from the
configured target namespace — and likewise whenever the configured target
namespace is empty — the handler answers allow with no patch, before any
label or injection check. -/
theorem c9_namespace_gate (cfg : Config) (body : Option Review)
    (h0 : reqF body ≠ Field.null) (h1 : kindF body ≠ Field.null)
    (h : cfg.targetNamespace = "" ∨ nsOf body ≠ some cfg.targetNamespace) :
    mutate cfg body = .ok (defaultResponse body) := by
  unfold mutate mutateOps matchedStage
  split_ifs <;> first | rfl | tauto

/-- C9 witnessed on a pod in namespace `other` against target `vllm`. -/
theorem c9_namespace_gate_witness :
    mutate cfgA (some ⟨.val { reqOf (some bodyA) with ns := .val "other" }⟩)
      = .ok (defaultResponse (some ⟨.val { reqOf (some bodyA) with ns := .val "other" }⟩)) :=
  c9_namespace_gate cfgA _ (by decide) (by decide) (Or.inr (by decide))

/-- C5: whenever the multi-label configuration string is non-empty,
(i) the legacy single-pair configuration is never consulted (the handler's
result is unchanged under any values of the legacy pair), (ii) the selector
is true iff at least one configured (key, value) pair matches the pod's
labels, (iii) if the multi-label string parses to zero valid pairs (every
entry lacking `=`) the pod is treated as non-matching and answered
allow-without-patch, and (iv) a pod matching none of the pairs is answered
allow-without-patch.  Individual malformed pairs are skipped (they simply
do not appear among the parsed pairs), never fatal. -/
theorem c5_multi_label_mode (cfg : Config) (body : Option Review) (k v : String)
    (hml : cfg.targetLabels ≠ "") :
    (mutate { cfg with targetLabelKey := k, targetLabelValue := v } body
      = mutate cfg body)
    ∧ (matches_any_label (labelsOf body) (parse_target_labels cfg.targetLabels) = true
        ↔ ∃ p ∈ parse_target_labels cfg.targetLabels,
            List.lookup p.1 (labelsOf body) = some p.2)
    ∧ (reqF body ≠ Field.null → kindF body ≠ Field.null →
        parse_target_labels cfg.targetLabels = [] →
        mutate cfg body = .ok (defaultResponse body))
    ∧ (reqF body ≠ Field.null → kindF body ≠ Field.null →
        matches_any_label (labelsOf body) (parse_target_labels cfg.targetLabels) = false →
        mutate cfg body = .ok (defaultResponse body)) := by
  obtain ⟨ns0, k0, v0, tl0, n0, w0⟩ := cfg
  simp only [Config.targetLabels] at hml
  refine ⟨?_, ?_, ?_, ?_⟩
  · show mutate ⟨ns0, k, v, tl0, n0, w0⟩ body = mutate ⟨ns0, k0, v0, tl0, n0, w0⟩ body
    unfold mutate mutateOps matchedStage injectionList
    simp only [Config.targetLabels, Config.targetNamespace, Config.targetLabelKey,
      Config.targetLabelValue, Config.injectEnvName, Config.injectEnvValue]
    split_ifs <;> rfl
  · simp only [matches_any_label, List.any_eq_true, beq_iff_eq]
  · intro h0 h1 hz
    unfold mutate mutateOps matchedStage
    split_ifs <;> first | rfl | tauto
  · intro h0 h1 hm
    unfold mutate mutateOps matchedStage
    split_ifs <;> first | rfl | tauto

/-- C5 witnessed at the concrete multi-label config and matching pod. -/
theorem c5_multi_label_mode_witness :
    (mutate { cfgA with targetLabelKey := "legacyK", targetLabelValue := "legacyV" }
        (some bodyA) = mutate cfgA (some bodyA))
    ∧ (matches_any_label (labelsOf (some bodyA)) (parse_target_labels cfgA.targetLabels) = true
        ↔ ∃ p ∈ parse_target_labels cfgA.targetLabels,
            List.lookup p.1 (labelsOf (some bodyA)) = some p.2)
    ∧ (reqF (some bodyA) ≠ Field.null → kindF (some bodyA) ≠ Field.null →
        parse_target_labels cfgA.targetLabels = [] →
        mutate cfgA (some bodyA) = .ok (defaultResponse (some bodyA)))
    ∧ (reqF (some bodyA) ≠ Field.null → kindF (some bodyA) ≠ Field.null →
        matches_any_label (labelsOf (some bodyA)) (parse_target_labels cfgA.targetLabels) = false →
        mutate cfgA (some bodyA) = .ok (defaultResponse (some bodyA))) :=
  c5_multi_label_mode cfgA (some bodyA) "legacyK" "legacyV" (by decide)

/-- Every op one container's env patch emits targets that container's env. -/
theorem envContainerOps_paths (i : Nat) (orig vars : List EnvVar) :
    ∀ op ∈ envContainerOps i orig vars,
      op.path = PPath.containerEnvRoot i ∨ op.path = PPath.containerEnvTail i
      ∨ ∃ j, op.path = PPath.containerEnvValueAt i j := by
  intro op hop
  rw [c6_env_builder] at hop
  rcases List.mem_append.mp hop with hl | hr
  · obtain ⟨ev, _, hev⟩ := List.mem_filterMap.mp hl
    cases hfi : orig.findIdx? (fun it => it.name == ev.name) with
    | none => rw [hfi] at hev; cases hev
    | some j =>
      rw [hfi] at hev
      obtain rfl := Option.some_injective _ hev
      exact Or.inr (Or.inr ⟨j, rfl⟩)
  · by_cases h1 : (toAddOf orig vars).isEmpty
    · simp [h1] at hr
    · by_cases h2 : orig.isEmpty
      · simp [h1, h2] at hr
        subst hr; exact Or.inl rfl
      · simp [h1, h2] at hr
        obtain ⟨ev, _, rfl⟩ := hr
        exact Or.inr (Or.inl rfl)

/-- Inversion for the env builder's container loop. -/
theorem envPodOps_cons_ok (vars : List EnvVar) (k : Nat) (c : Container)
    (rest : List Container) (ops : List PatchOp)
    (h : envPodOps vars k (c :: rest) = .ok ops) :
    c.env ≠ Field.null ∧ ∃ more, envPodOps vars (k + 1) rest = .ok more ∧
      ops = envContainerOps k (fieldListD c.env) vars ++ more := by
  unfold envPodOps at h
  cases hce : c.env with
  | null => rw [hce] at h; cases h
  | absent =>
    rw [hce] at h
    cases hrest : envPodOps vars (k + 1) rest with
    | error e => rw [hrest] at h; cases h
    | ok more =>
      rw [hrest] at h
      exact ⟨by simp [hce], more, rfl, ((Except.ok.injEq _ _).mp h).symm⟩
  | val es =>
    rw [hce] at h
    cases hrest : envPodOps vars (k + 1) rest with
    | error e => rw [hrest] at h; cases h
    | ok more =>
      rw [hrest] at h
      exact ⟨by simp [hce], more, rfl, ((Except.ok.injEq _ _).mp h).symm⟩

/-- Every op the env builder emits targets some container's env. -/
theorem envPodOps_paths (vars : List EnvVar) (k : Nat) (cs : List Container)
    (ops : List PatchOp) (h : envPodOps vars k cs = .ok ops) :
    ∀ op ∈ ops,
      ∃ i, op.path = PPath.containerEnvRoot i ∨ op.path = PPath.containerEnvTail i
        ∨ ∃ j, op.path = PPath.containerEnvValueAt i j := by
  induction cs generalizing k ops with
  | nil =>
    obtain rfl : ([] : List PatchOp) = ops := by simpa [envPodOps] using h
    intro op hop; cases hop
  | cons c rest ih =>
    obtain ⟨-, more, hmore, rfl⟩ := envPodOps_cons_ok vars k c rest ops h
    intro op hop
    rcases List.mem_append.mp hop with hl | hr
    · exact ⟨k, envContainerOps_paths k (fieldListD c.env) vars op hl⟩
    · exact ih (k + 1) more hmore op hr

/-- Every op the env builder emits targets some container's env (whole
builder). -/
theorem build_env_paths (pod : Pod) (vars : List EnvVar) (ops : List PatchOp)
    (h : build_env_patch_for_pod pod vars = .ok ops) :
    ∀ op ∈ ops,
      ∃ i, op.path = PPath.containerEnvRoot i ∨ op.path = PPath.containerEnvTail i
        ∨ ∃ j, op.path = PPath.containerEnvValueAt i j := by
  unfold build_env_patch_for_pod at h
  cases hs : pod.spec with
  | null => rw [hs] at h; cases h
  | absent =>
    rw [hs] at h
    exact envPodOps_paths vars 0 _ ops h
  | val s =>
    rw [hs] at h
    simp only [Field.orElse] at h
    cases hc : s.containers with
    | null => rw [hc] at h; cases h
    | absent => rw [hc] at h; exact envPodOps_paths vars 0 _ ops h
    | val cs => rw [hc] at h; exact envPodOps_paths vars 0 _ ops h

/-- Every op the volume step emits targets `spec.volumes`. -/
theorem volumeOps_paths (vols : List Volume) :
    ∀ op ∈ volumeOps vols,
      op.path = PPath.volumesRoot ∨ op.path = PPath.volumesTail := by
  intro op hop
  unfold volumeOps at hop
  split_ifs at hop <;> simp at hop <;> subst hop <;> simp

/-- Every op one container's mount patch emits targets that container's
volumeMounts. -/
theorem mountContainerOps_paths (i : Nat) (ms : List VolumeMount) :
    ∀ op ∈ mountContainerOps i ms,
      op.path = PPath.mountsRoot i ∨ op.path = PPath.mountsTail i := by
  intro op hop
  unfold mountContainerOps at hop
  by_cases h1 : (mountRecords ms).isEmpty
  · simp [h1] at hop
  · by_cases h2 : ms.isEmpty
    · simp [h1, h2] at hop; subst hop; exact Or.inl rfl
    · simp [h1, h2] at hop
      obtain ⟨m, -, rfl⟩ := hop
      exact Or.inr rfl

/-- Inversion for the mount builder's container loop. -/
theorem mountPodOps_cons_ok (k : Nat) (c : Container) (rest : List Container)
    (ops : List PatchOp) (h : mountPodOps k (c :: rest) = .ok ops) :
    c.volumeMounts ≠ Field.null ∧ ∃ more, mountPodOps (k + 1) rest = .ok more ∧
      ops = mountContainerOps k (fieldListD c.volumeMounts) ++ more := by
  unfold mountPodOps at h
  cases hcm : c.volumeMounts with
  | null => rw [hcm] at h; cases h
  | absent =>
    rw [hcm] at h
    cases hrest : mountPodOps (k + 1) rest with
    | error e => rw [hrest] at h; cases h
    | ok more =>
      rw [hrest] at h
      exact ⟨by simp [hcm], more, rfl, ((Except.ok.injEq _ _).mp h).symm⟩
  | val ms =>
    rw [hcm] at h
    cases hrest : mountPodOps (k + 1) rest with
    | error e => rw [hrest] at h; cases h
    | ok more =>
      rw [hrest] at h
      exact ⟨by simp [hcm], more, rfl, ((Except.ok.injEq _ _).mp h).symm⟩

/-- Every op the mount loop emits targets some container's volumeMounts. -/
theorem mountPodOps_paths (k : Nat) (cs : List Container) (ops : List PatchOp)
    (h : mountPodOps k cs = .ok ops) :
    ∀ op ∈ ops, ∃ i, op.path = PPath.mountsRoot i ∨ op.path = PPath.mountsTail i := by
  induction cs generalizing k ops with
  | nil =>
    obtain rfl : ([] : List PatchOp) = ops := by simpa [mountPodOps] using h
    intro op hop; cases hop
  | cons c rest ih =>
    obtain ⟨-, more, hmore, rfl⟩ := mountPodOps_cons_ok k c rest ops h
    intro op hop
    rcases List.mem_append.mp hop with hl | hr
    · exact ⟨k, mountContainerOps_paths k (fieldListD c.volumeMounts) op hl⟩
    · exact ih (k + 1) more hmore op hr

/-- Every op the files builder emits targets `spec.volumes` or some
container's volumeMounts. -/
theorem build_files_paths (pod : Pod) (ops : List PatchOp)
    (h : build_files_volume_patch_for_pod pod = .ok ops) :
    ∀ op ∈ ops,
      (op.path = PPath.volumesRoot ∨ op.path = PPath.volumesTail)
      ∨ ∃ i, op.path = PPath.mountsRoot i ∨ op.path = PPath.mountsTail i := by
  unfold build_files_volume_patch_for_pod at h
  cases hv : (Field.orElse pod.spec ⟨Field.absent, Field.absent⟩).volumes with
  | null => rw [hv] at h; cases h
  | absent =>
    rw [hv] at h
    cases hc : (Field.orElse pod.spec ⟨Field.absent, Field.absent⟩).containers with
    | null => rw [hc] at h; cases h
    | absent =>
      rw [hc] at h
      dsimp only at h
      cases hm : mountPodOps 0 (fieldListD Field.absent) with
      | error e => rw [hm] at h; cases h
      | ok mops =>
        rw [hm] at h
        obtain rfl := ((Except.ok.injEq _ _).mp h).symm
        intro op hop
        rcases List.mem_append.mp hop with hl | hr
        · exact Or.inl (volumeOps_paths _ op hl)
        · exact Or.inr (mountPodOps_paths 0 _ mops hm op hr)
    | val cs =>
      rw [hc] at h
      dsimp only at h
      cases hm : mountPodOps 0 (fieldListD (Field.val cs)) with
      | error e => rw [hm] at h; cases h
      | ok mops =>
        rw [hm] at h
        obtain rfl := ((Except.ok.injEq _ _).mp h).symm
        intro op hop
        rcases List.mem_append.mp hop with hl | hr
        · exact Or.inl (volumeOps_paths _ op hl)
        · exact Or.inr (mountPodOps_paths 0 _ mops hm op hr)
  | val vs =>
    rw [hv] at h
    cases hc : (Field.orElse pod.spec ⟨Field.absent, Field.absent⟩).containers with
    | null => rw [hc] at h; cases h
    | absent =>
      rw [hc] at h
      dsimp only at h
      cases hm : mountPodOps 0 (fieldListD Field.absent) with
      | error e => rw [hm] at h; cases h
      | ok mops =>
        rw [hm] at h
        obtain rfl := ((Except.ok.injEq _ _).mp h).symm
        intro op hop
        rcases List.mem_append.mp hop with hl | hr
        · exact Or.inl (volumeOps_paths _ op hl)
        · exact Or.inr (mountPodOps_paths 0 _ mops hm op hr)
    | val cs =>
      rw [hc] at h
      dsimp only at h
      cases hm : mountPodOps 0 (fieldListD (Field.val cs)) with
      | error e => rw [hm] at h; cases h
      | ok mops =>
        rw [hm] at h
        obtain rfl := ((Except.ok.injEq _ _).mp h).symm
        intro op hop
        rcases List.mem_append.mp hop with hl | hr
        · exact Or.inl (volumeOps_paths _ op hl)
        · exact Or.inr (mountPodOps_paths 0 _ mops hm op hr)

/-- C8: every admission response the handler returns is `allowed = true`
and echoes the request uid; whenever a patch is attached, `patchType` is
`"JSONPatch"` and the patch is the base64 of the JSON rendering of the
assembled op list, in which the env builder's operations (all targeting
container env locations) precede the files builder's operations (all
targeting the volume list or container volumeMounts). -/
theorem c8_response_invariants (cfg : Config) (body : Option Review)
    (r : MutResponse) (h : mutate cfg body = .ok r) :
    r.allowed = true ∧ r.uid = reqUid body
    ∧ (∀ ps, r.patch = some ps →
        r.patchType = some "JSONPatch"
        ∧ ∃ envOps fileOps,
            build_env_patch_for_pod (objOf body) (injectionList cfg (annsOf body))
              = .ok envOps
            ∧ build_files_volume_patch_for_pod (objOf body) = .ok fileOps
            ∧ ps = b64encode (jsonDumps (envOps ++ fileOps))
            ∧ (∀ op ∈ envOps,
                ∃ i, op.path = PPath.containerEnvRoot i
                  ∨ op.path = PPath.containerEnvTail i
                  ∨ ∃ j, op.path = PPath.containerEnvValueAt i j)
            ∧ (∀ op ∈ fileOps,
                (op.path = PPath.volumesRoot ∨ op.path = PPath.volumesTail)
                ∨ ∃ i, op.path = PPath.mountsRoot i ∨ op.path = PPath.mountsTail i)) := by
  unfold mutate at h
  rw [mutateOps_eq] at h
  by_cases h1 : reqF body = Field.null
  · rw [if_pos h1] at h; cases h
  · rw [if_neg h1] at h
    by_cases h2 : kindF body = Field.null
    · rw [if_pos h2] at h; cases h
    · rw [if_neg h2] at h
      by_cases h3 : GatesRest cfg body
      · rw [if_pos h3] at h
        cases he : build_env_patch_for_pod (objOf body) (injectionList cfg (annsOf body)) with
        | error e => rw [he] at h; cases h
        | ok envOps =>
          rw [he] at h
          dsimp only at h
          cases hf : build_files_volume_patch_for_pod (objOf body) with
          | error e => rw [hf] at h; cases h
          | ok fileOps =>
            rw [hf] at h
            dsimp only at h
            by_cases hne : (envOps ++ fileOps).isEmpty
            · rw [if_pos hne] at h
              obtain rfl := ((Except.ok.injEq _ _).mp h).symm
              exact ⟨rfl, rfl, fun ps hps => by cases hps⟩
            · rw [if_neg hne] at h
              obtain rfl := ((Except.ok.injEq _ _).mp h).symm
              refine ⟨rfl, rfl, fun ps hps => ?_⟩
              obtain rfl := (Option.some_injective _ hps).symm
              exact ⟨rfl, envOps, fileOps, rfl, rfl, rfl,
                build_env_paths (objOf body) _ envOps he,
                build_files_paths (objOf body) fileOps hf⟩
      · rw [if_neg h3] at h
        obtain rfl := ((Except.ok.injEq _ _).mp h).symm
        exact ⟨rfl, rfl, fun ps hps => by cases hps⟩

/-- C8 witnessed on the concrete matching request `bodyA`. -/
theorem c8_response_invariants_witness :
    respA1.allowed = true ∧ respA1.uid = reqUid (some bodyA)
    ∧ (∀ ps, respA1.patch = some ps →
        respA1.patchType = some "JSONPatch"
        ∧ ∃ envOps fileOps,
            build_env_patch_for_pod (objOf (some bodyA))
                (injectionList cfgA (annsOf (some bodyA))) = .ok envOps
            ∧ build_files_volume_patch_for_pod (objOf (some bodyA)) = .ok fileOps
            ∧ ps = b64encode (jsonDumps (envOps ++ fileOps))
            ∧ (∀ op ∈ envOps,
                ∃ i, op.path = PPath.containerEnvRoot i
                  ∨ op.path = PPath.containerEnvTail i
                  ∨ ∃ j, op.path = PPath.containerEnvValueAt i j)
            ∧ (∀ op ∈ fileOps,
                (op.path = PPath.volumesRoot ∨ op.path = PPath.volumesTail)
                ∨ ∃ i, op.path = PPath.mountsRoot i ∨ op.path = PPath.mountsTail i)) :=
  c8_response_invariants cfgA (some bodyA) respA1 rfl

/-- `mountContainerOps` in claim order (create-when-empty spelled first). -/
theorem mountContainerOps_inline (i : Nat) (ms : List VolumeMount) :
    mountContainerOps i ms =
      (if (FILE_KEYS.filterMap (fun f =>
            if ms.any (fun m => m.mountPath == f.mountPath) then none
            else some (⟨FILES_VOLUME_NAME, f.mountPath, some f.key, some true⟩ : VolumeMount))).isEmpty
       then []
       else if ms.isEmpty then
         [⟨.add, .mountsRoot i, .mountList (FILE_KEYS.filterMap (fun f =>
            if ms.any (fun m => m.mountPath == f.mountPath) then none
            else some (⟨FILES_VOLUME_NAME, f.mountPath, some f.key, some true⟩ : VolumeMount)))⟩]
       else (FILE_KEYS.filterMap (fun f =>
            if ms.any (fun m => m.mountPath == f.mountPath) then none
            else some (⟨FILES_VOLUME_NAME, f.mountPath, some f.key, some true⟩ : VolumeMount))).map
          (fun m => ⟨.add, .mountsTail i, .mount m⟩)) := by
  unfold mountContainerOps mountRecords
  by_cases h1 : (FILE_KEYS.filterMap (fun f =>
      if ms.any (fun m => m.mountPath == f.mountPath) then none
      else some (⟨FILES_VOLUME_NAME, f.mountPath, some f.key, some true⟩ : VolumeMount))).isEmpty <;>
    by_cases h2 : ms.isEmpty <;> simp [h1, h2]

/-- The mount loop, closed form: per-container ops concatenated in
container order with absolute indices. -/
theorem mountPodOps_eq_flat (k : Nat) (cs : List Container)
    (hm : ∀ c ∈ cs, c.volumeMounts ≠ Field.null) :
    mountPodOps k cs = .ok ((cs.enumFrom k).flatMap
      (fun ic => mountContainerOps ic.1 (fieldListD ic.2.volumeMounts))) := by
  induction cs generalizing k with
  | nil => rfl
  | cons c rest ih =>
    have hrest := ih (k + 1) (fun c' hc' => hm c' (List.mem_cons_of_mem c hc'))
    unfold mountPodOps
    cases hcm : c.volumeMounts with
    | null => exact absurd hcm (hm c (List.mem_cons_self c rest))
    | absent =>
      rw [hrest]
      simp [List.enumFrom_cons, List.flatMap_cons, hcm]
    | val ms =>
      rw [hrest]
      simp [List.enumFrom_cons, List.flatMap_cons, hcm]

/-- C7: for every (null-free) pod, the files builder emits exactly one add
for the auxiliary volume iff no volume with the auxiliary name exists
(appending when the volume array is non-empty, creating it with that single
volume otherwise), followed, for each container in order, by a mount record
(auxiliary volume name, the file's sub-path, readOnly true) for exactly the
configured (sourceKey, mountPath) entries whose mountPath is not already
present on that container — as per-item appends when the container's
volumeMounts list is non-empty, and as a single create-list op otherwise. -/
theorem c7_files_builder (md : Field PodMeta) (cs : List Container)
    (vols : List Volume) (hm : ∀ c ∈ cs, c.volumeMounts ≠ Field.null) :
    ∃ ops, build_files_volume_patch_for_pod ⟨md, .val ⟨.val cs, .val vols⟩⟩ = .ok ops
    ∧ ops =
        (if vols.any (fun v => v.name == FILES_VOLUME_NAME) then []
         else if vols.isEmpty then [⟨.add, .volumesRoot, .volList [filesVolume]⟩]
         else [⟨.add, .volumesTail, .volume filesVolume⟩])
        ++ (cs.enumFrom 0).flatMap (fun ic =>
             mountContainerOps ic.1 (fieldListD ic.2.volumeMounts))
    ∧ (∀ i ms, mountContainerOps i ms =
        (if (FILE_KEYS.filterMap (fun f =>
              if ms.any (fun m => m.mountPath == f.mountPath) then none
              else some (⟨FILES_VOLUME_NAME, f.mountPath, some f.key, some true⟩ : VolumeMount))).isEmpty
         then []
         else if ms.isEmpty then
           [⟨.add, .mountsRoot i, .mountList (FILE_KEYS.filterMap (fun f =>
              if ms.any (fun m => m.mountPath == f.mountPath) then none
              else some (⟨FILES_VOLUME_NAME, f.mountPath, some f.key, some true⟩ : VolumeMount)))⟩]
         else (FILE_KEYS.filterMap (fun f =>
              if ms.any (fun m => m.mountPath == f.mountPath) then none
              else some (⟨FILES_VOLUME_NAME, f.mountPath, some f.key, some true⟩ : VolumeMount))).map
            (fun m => ⟨.add, .mountsTail i, .mount m⟩)))
    ∧ ((ops.filter (fun o =>
          o.path == PPath.volumesRoot || o.path == PPath.volumesTail)).length
        = if vols.any (fun v => v.name == FILES_VOLUME_NAME) then 0 else 1) := by
  have hflat := mountPodOps_eq_flat 0 cs hm
  have hmain : build_files_volume_patch_for_pod ⟨md, .val ⟨.val cs, .val vols⟩⟩
      = .ok (volumeOps vols ++ (cs.enumFrom 0).flatMap
          (fun ic => mountContainerOps ic.1 (fieldListD ic.2.volumeMounts))) := by
    unfold build_files_volume_patch_for_pod
    dsimp only [Field.orElse, fieldListD]
    rw [hflat]
    rfl
  refine ⟨_, hmain, ?_, fun i ms => mountContainerOps_inline i ms, ?_⟩
  · unfold volumeOps
    by_cases h1 : vols.any (fun v => v.name == FILES_VOLUME_NAME) <;>
      by_cases h2 : vols.isEmpty <;> simp [h1, h2]
  · rw [List.filter_append, List.length_append]
    have hmounts : ((cs.enumFrom 0).flatMap
        (fun ic => mountContainerOps ic.1 (fieldListD ic.2.volumeMounts))).filter
          (fun o => o.path == PPath.volumesRoot || o.path == PPath.volumesTail) = [] := by
      rw [List.filter_eq_nil_iff]
      intro op hop
      obtain ⟨i, hi⟩ := mountPodOps_paths 0 cs _ hflat op hop
      rcases hi with hi | hi <;> simp [hi]
    rw [hmounts]
    unfold volumeOps
    by_cases h1 : vols.any (fun v => v.name == FILES_VOLUME_NAME) <;>
      by_cases h2 : vols.isEmpty <;> simp [h1, h2]

/-- C7 witnessed on a one-container pod with no volumes and no mounts. -/
theorem c7_files_builder_witness :
    ∃ ops, build_files_volume_patch_for_pod
        ⟨.val ⟨.val "p1", .val [("app", "vllm")], .absent⟩, .val ⟨.val [contA], .val []⟩⟩
      = .ok ops
    ∧ ops =
        (if ([] : List Volume).any (fun v => v.name == FILES_VOLUME_NAME) then []
         else if ([] : List Volume).isEmpty then
           [⟨.add, .volumesRoot, .volList [filesVolume]⟩]
         else [⟨.add, .volumesTail, .volume filesVolume⟩])
        ++ (([contA].enumFrom 0).flatMap (fun ic =>
             mountContainerOps ic.1 (fieldListD ic.2.volumeMounts)))
    ∧ (∀ i ms, mountContainerOps i ms =
        (if (FILE_KEYS.filterMap (fun f =>
              if ms.any (fun m => m.mountPath == f.mountPath) then none
              else some (⟨FILES_VOLUME_NAME, f.mountPath, some f.key, some true⟩ : VolumeMount))).isEmpty
         then []
         else if ms.isEmpty then
           [⟨.add, .mountsRoot i, .mountList (FILE_KEYS.filterMap (fun f =>
              if ms.any (fun m => m.mountPath == f.mountPath) then none
              else some (⟨FILES_VOLUME_NAME, f.mountPath, some f.key, some true⟩ : VolumeMount)))⟩]
         else (FILE_KEYS.filterMap (fun f =>
              if ms.any (fun m => m.mountPath == f.mountPath) then none
              else some (⟨FILES_VOLUME_NAME, f.mountPath, some f.key, some true⟩ : VolumeMount))).map
            (fun m => ⟨.add, .mountsTail i, .mount m⟩)))
    ∧ ((ops.filter (fun o =>
          o.path == PPath.volumesRoot || o.path == PPath.volumesTail)).length
        = if ([] : List Volume).any (fun v => v.name == FILES_VOLUME_NAME) then 0 else 1) :=
  c7_files_builder (.val ⟨.val "p1", .val [("app", "vllm")], .absent⟩) [contA] []
    (by decide)

/-! ## List helper lemmas for patch application -/

theorem modifyIdx_length (l : List α) (i : Nat) (f : α → α) :
    (modifyIdx l i f).length = l.length := by
  induction l generalizing i with
  | nil => rfl
  | cons x xs ih => cases i <;> simp [modifyIdx, ih]

theorem getElem?_modifyIdx_ne (l : List α) (i k : Nat) (f : α → α) (h : k ≠ i) :
    (modifyIdx l i f)[k]? = l[k]? := by
  induction l generalizing i k with
  | nil => rfl
  | cons x xs ih =>
    cases i with
    | zero =>
      cases k with
      | zero => exact absurd rfl h
      | succ k' => simp [modifyIdx]
    | succ i' =>
      cases k with
      | zero => simp [modifyIdx]
      | succ k' => simpa [modifyIdx] using ih i' k' (fun hc => h (by simp [hc]))

theorem getElem?_modifyIdx_self (l : List α) (i : Nat) (f : α → α) :
    (modifyIdx l i f)[i]? = (l[i]?).map f := by
  induction l generalizing i with
  | nil => rfl
  | cons x xs ih => cases i <;> simp [modifyIdx, ih]

theorem modifyIdx_append_at (pre : List α) (c : α) (suf : List α) (f : α → α) :
    modifyIdx (pre ++ c :: suf) pre.length f = pre ++ f c :: suf := by
  induction pre with
  | nil => rfl
  | cons p ps ih => simpa [modifyIdx] using ih

theorem modifyIdx_modifyIdx (l : List α) (i : Nat) (f g : α → α) :
    modifyIdx (modifyIdx l i f) i g = modifyIdx l i (fun x => g (f x)) := by
  induction l generalizing i with
  | nil => rfl
  | cons x xs ih => cases i <;> simp [modifyIdx, ih]

theorem modifyIdx_eq_self (l : List α) (i : Nat) (f : α → α)
    (h : ∀ x, l[i]? = some x → f x = x) : modifyIdx l i f = l := by
  induction l generalizing i with
  | nil => rfl
  | cons x xs ih =>
    cases i with
    | zero => simp [modifyIdx, h x (by simp)]
    | succ i' => simpa [modifyIdx] using ih i' (fun y hy => h y (by simpa using hy))

theorem applyOps_append (p : Pod) (a b : List PatchOp) :
    applyOps p (a ++ b) =
      match applyOps p a with
      | some q => applyOps q b
      | none => none := by
  induction a generalizing p with
  | nil => rfl
  | cons o rest ih =>
    cases ho : applyOp p o <;> simp [applyOps, ho, ih]

theorem envScan_nil_orig (i : Nat) (vars : List EnvVar) :
    envScan i [] vars = ([], vars) := by
  induction vars with
  | nil => rfl
  | cons ev rest ih => simp [envScan, ih, List.findIdx?]

theorem applyRepsFrom_nil_orig (es vars : List EnvVar) :
    applyRepsFrom es [] vars = es := by
  induction vars generalizing es with
  | nil => rfl
  | cons ev rest ih => simp [applyRepsFrom, List.findIdx?] at ih ⊢

/-! ## How the emitted env operations transform the pod -/

theorem modifyIdx_env_self (cs : List Container) (i : Nat) (c : Container)
    (es : List EnvVar) (hc : cs[i]? = some c) (hce : c.env = Field.val es) :
    modifyIdx cs i (fun x => { x with env := Field.val es }) = cs := by
  apply modifyIdx_eq_self
  intro x hx
  rw [hc] at hx
  obtain rfl : c = x := Option.some_injective _ hx
  obtain ⟨n, e, m⟩ := c
  dsimp only at hce ⊢
  subst hce
  rfl

/-- Applying the replace operations of one container's scan: the env list
becomes `applyRepsFrom es orig vars`, everything else is unchanged. -/
theorem apply_reps (md : Field PodMeta) (vf : Field (List Volume))
    (cs : List Container) (i : Nat) (c : Container) (orig es vars : List EnvVar)
    (hc : cs[i]? = some c) (hce : c.env = Field.val es)
    (hlen : es.length = orig.length) :
    applyOps ⟨md, .val ⟨.val cs, vf⟩⟩ (envScan i orig vars).1
      = some ⟨md, .val ⟨.val (modifyIdx cs i
          (fun x => { x with env := Field.val (applyRepsFrom es orig vars) })), vf⟩⟩ := by
  induction vars generalizing cs c es with
  | nil =>
    simp only [envScan, applyOps, applyRepsFrom, List.foldl_nil]
    rw [modifyIdx_env_self cs i c es hc hce]
  | cons ev rest ih =>
    cases hfi : orig.findIdx? (fun it => it.name == ev.name) with
    | none =>
      have hstep : applyRepsFrom es orig (ev :: rest) = applyRepsFrom es orig rest := by
        simp [applyRepsFrom, List.foldl_cons, hfi]
      simp only [envScan, hfi]
      rw [hstep]
      exact ih cs c es hc hce hlen
    | some j =>
      have hj : j < orig.length := by
        obtain ⟨hlt, -, -⟩ := List.findIdx?_eq_some_iff_getElem.mp hfi
        exact hlt
      have hjes : j < es.length := hlen ▸ hj
      have hstep : applyRepsFrom es orig (ev :: rest)
          = applyRepsFrom (modifyIdx es j (fun x => { x with value := ev.value })) orig rest := by
        simp [applyRepsFrom, List.foldl_cons, hfi]
      simp only [envScan, hfi]
      show applyOps _ (⟨POp.replace, PPath.containerEnvValueAt i j, PValue.str ev.value⟩ ::
        (envScan i orig rest).1) = _
      have hstep2 : applyOp ⟨md, .val ⟨.val cs, vf⟩⟩
          ⟨POp.replace, PPath.containerEnvValueAt i j, PValue.str ev.value⟩
          = some ⟨md, .val ⟨.val (modifyIdx cs i (fun x => { x with
              env := Field.val (modifyIdx es j (fun y => { y with value := ev.value })) })), vf⟩⟩ := by
        simp [applyOp, hc, hce, hjes]
      have hc' : (modifyIdx cs i (fun x => { x with
          env := Field.val (modifyIdx es j (fun y => { y with value := ev.value })) }))[i]?
          = some { c with env := Field.val (modifyIdx es j (fun y => { y with value := ev.value })) } := by
        rw [getElem?_modifyIdx_self, hc]; rfl
      have hih := ih (modifyIdx cs i (fun x => { x with
          env := Field.val (modifyIdx es j (fun y => { y with value := ev.value })) }))
        { c with env := Field.val (modifyIdx es j (fun y => { y with value := ev.value })) }
        (modifyIdx es j (fun y => { y with value := ev.value })) hc' rfl
        (by rw [modifyIdx_length]; exact hlen)
      simp only [applyOps, hstep2, hstep]
      rw [hih, modifyIdx_modifyIdx]

/-- Applying the queued tail-append operations: the queued variables are
appended to the container's env list in order. -/
theorem apply_env_appends (md : Field PodMeta) (vf : Field (List Volume))
    (cs : List Container) (i : Nat) (c : Container) (es toAdd : List EnvVar)
    (hc : cs[i]? = some c) (hce : c.env = Field.val es) :
    applyOps ⟨md, .val ⟨.val cs, vf⟩⟩
        (toAdd.map (fun ev => ⟨.add, .containerEnvTail i, .env ev⟩))
      = some ⟨md, .val ⟨.val (modifyIdx cs i
          (fun x => { x with env := Field.val (es ++ toAdd) })), vf⟩⟩ := by
  induction toAdd generalizing cs c es with
  | nil =>
    simp only [List.map_nil, applyOps, List.append_nil]
    rw [modifyIdx_env_self cs i c es hc hce]
  | cons e rest ih =>
    have hstep : applyOp ⟨md, .val ⟨.val cs, vf⟩⟩ ⟨.add, .containerEnvTail i, .env e⟩
        = some ⟨md, .val ⟨.val (modifyIdx cs i
            (fun x => { x with env := Field.val (es ++ [e]) })), vf⟩⟩ := by
      simp [applyOp, hc, hce]
    have hc' : (modifyIdx cs i (fun x => { x with env := Field.val (es ++ [e]) }))[i]?
        = some { c with env := Field.val (es ++ [e]) } := by
      rw [getElem?_modifyIdx_self, hc]; rfl
    simp only [List.map_cons, applyOps, hstep]
    rw [ih _ _ (es ++ [e]) hc' rfl, modifyIdx_modifyIdx]
    simp

/-- Applying the env-list-creating add. -/
theorem apply_env_create (md : Field PodMeta) (vf : Field (List Volume))
    (cs : List Container) (i : Nat) (l : List EnvVar) (hi : i < cs.length) :
    applyOps ⟨md, .val ⟨.val cs, vf⟩⟩ [⟨.add, .containerEnvRoot i, .envList l⟩]
      = some ⟨md, .val ⟨.val (modifyIdx cs i
          (fun x => { x with env := Field.val l })), vf⟩⟩ := by
  simp [applyOps, applyOp, hi]

theorem toAddOf_nil_orig (vars : List EnvVar) : toAddOf [] vars = vars := by
  simp [toAddOf, List.findIdx?]

theorem envContainerOps_def (i : Nat) (orig vars : List EnvVar) :
    envContainerOps i orig vars =
      (envScan i orig vars).1 ++
        (if (envScan i orig vars).2.isEmpty then []
         else if !orig.isEmpty then
           (envScan i orig vars).2.map (fun ev => ⟨.add, .containerEnvTail i, .env ev⟩)
         else [⟨.add, .containerEnvRoot i, .envList (envScan i orig vars).2⟩]) := rfl

/-- Applying one container's whole env patch: the container's env list
becomes `newEnvList orig vars` (replaces applied, queued entries appended,
or the list created), everything else unchanged. -/
theorem apply_env_container (md : Field PodMeta) (vf : Field (List Volume))
    (cs : List Container) (i : Nat) (c : Container) (vars orig : List EnvVar)
    (hc : cs[i]? = some c)
    (horig : c.env = Field.val orig ∨ (c.env = Field.absent ∧ orig = []))
    (hvars : vars ≠ []) :
    applyOps ⟨md, .val ⟨.val cs, vf⟩⟩ (envContainerOps i orig vars)
      = some ⟨md, .val ⟨.val (modifyIdx cs i
          (fun x => { x with env := Field.val (newEnvList orig vars) })), vf⟩⟩ := by
  have hi : i < cs.length := by
    obtain ⟨h, -⟩ := List.getElem?_eq_some_iff.mp hc
    exact h
  unfold envContainerOps
  rw [applyOps_append]
  rcases horig with hval | ⟨habs, horig0⟩
  · rw [apply_reps md vf cs i c orig orig vars hc hval rfl]
    dsimp only
    by_cases hq : (envScan i orig vars).2.isEmpty
    · have hq' : toAddOf orig vars = [] := by
        rw [← envScan_snd i]; exact List.isEmpty_iff.mp hq
      simp only [hq, if_true, applyOps]
      rw [newEnvList, hq', List.append_nil]
    · by_cases ho : orig.isEmpty
      · obtain rfl : orig = [] := List.isEmpty_iff.mp ho
        have hi' : i < (modifyIdx cs i (fun x => { x with
            env := Field.val (applyRepsFrom [] [] vars) })).length := by
          rw [modifyIdx_length]; exact hi
        simp only [hq, ho, Bool.not_true, if_false, Bool.false_eq_true]
        rw [apply_env_create md vf _ i _ hi', modifyIdx_modifyIdx]
        simp [newEnvList, applyRepsFrom_nil_orig, envScan_snd, toAddOf_nil_orig]
      · have hc' : (modifyIdx cs i (fun x => { x with
            env := Field.val (applyRepsFrom orig orig vars) }))[i]?
            = some { c with env := Field.val (applyRepsFrom orig orig vars) } := by
          rw [getElem?_modifyIdx_self, hc]; rfl
        simp only [hq, ho, Bool.not_false, if_true, Bool.false_eq_true, if_false]
        rw [apply_env_appends md vf _ i _ (applyRepsFrom orig orig vars)
          (envScan i orig vars).2 hc' rfl, modifyIdx_modifyIdx]
        rw [newEnvList, envScan_snd]
  · subst horig0
    rw [envScan_nil_orig]
    dsimp only
    have hne : vars.isEmpty = false := by
      cases vars with
      | nil => exact absurd rfl hvars
      | cons a as => rfl
    simp only [hne, List.isEmpty_nil, Bool.false_eq_true, if_false, Bool.not_true,
      List.nil_append]
    dsimp only [applyOps]
    simp [applyOp, hi, newEnvList, applyRepsFrom_nil_orig, toAddOf_nil_orig]

/-- Applying the whole env patch: every container's env list becomes its
`newEnvList`; metadata, volumes, and all other container fields are
untouched. -/
theorem apply_env_all (md : Field PodMeta) (vf : Field (List Volume))
    (pre suf : List Container) (vars : List EnvVar) (hvars : vars ≠ [])
    (ops : List PatchOp) (hops : envPodOps vars pre.length suf = .ok ops) :
    applyOps ⟨md, .val ⟨.val (pre ++ suf), vf⟩⟩ ops
      = some ⟨md, .val ⟨.val (pre ++ suf.map (patchEnv vars)), vf⟩⟩ := by
  induction suf generalizing pre ops with
  | nil =>
    obtain rfl : ([] : List PatchOp) = ops := by simpa [envPodOps] using hops
    simp [applyOps]
  | cons c rest ih =>
    obtain ⟨hnn, more, hmore, rfl⟩ := envPodOps_cons_ok vars pre.length c rest ops hops
    rw [applyOps_append]
    have hc : (pre ++ c :: rest)[pre.length]? = some c := by
      rw [List.getElem?_append]
      simp
    have horig : c.env = Field.val (fieldListD c.env)
        ∨ (c.env = Field.absent ∧ fieldListD c.env = []) := by
      cases hce : c.env with
      | null => exact absurd hce hnn
      | absent => exact Or.inr ⟨rfl, rfl⟩
      | val l => exact Or.inl (by simp [hce, fieldListD])
    rw [apply_env_container md vf (pre ++ c :: rest) pre.length c vars
      (fieldListD c.env) hc horig hvars]
    dsimp only
    have hmod : modifyIdx (pre ++ c :: rest) pre.length
        (fun x => { x with env := Field.val (newEnvList (fieldListD c.env) vars) })
        = pre ++ patchEnv vars c :: rest := by
      rw [modifyIdx_append_at]
      rfl
    rw [hmod]
    have hmore' : envPodOps vars (pre ++ [patchEnv vars c]).length rest = .ok more := by
      simpa [List.length_append] using hmore
    have := ih (pre ++ [patchEnv vars c]) more hmore'
    simpa [List.append_assoc] using this

/-! ## How the emitted volume/mount operations transform the pod -/

theorem mountContainerOps_def (i : Nat) (ms : List VolumeMount) :
    mountContainerOps i ms =
      (if (mountRecords ms).isEmpty then []
       else if !ms.isEmpty then
         (mountRecords ms).map (fun m => ⟨.add, .mountsTail i, .mount m⟩)
       else [⟨.add, .mountsRoot i, .mountList (mountRecords ms)⟩]) := rfl

theorem modifyIdx_mounts_self (cs : List Container) (i : Nat) (c : Container)
    (ms : List VolumeMount) (hc : cs[i]? = some c)
    (hcm : c.volumeMounts = Field.val ms) :
    modifyIdx cs i (fun x => { x with volumeMounts := Field.val ms }) = cs := by
  apply modifyIdx_eq_self
  intro x hx
  rw [hc] at hx
  obtain rfl : c = x := Option.some_injective _ hx
  obtain ⟨n, e, m⟩ := c
  dsimp only at hcm ⊢
  subst hcm
  rfl

theorem apply_mount_appends (md : Field PodMeta) (vf : Field (List Volume))
    (cs : List Container) (i : Nat) (c : Container) (ms toAdd : List VolumeMount)
    (hc : cs[i]? = some c) (hcm : c.volumeMounts = Field.val ms) :
    applyOps ⟨md, .val ⟨.val cs, vf⟩⟩
        (toAdd.map (fun m => ⟨.add, .mountsTail i, .mount m⟩))
      = some ⟨md, .val ⟨.val (modifyIdx cs i
          (fun x => { x with volumeMounts := Field.val (ms ++ toAdd) })), vf⟩⟩ := by
  induction toAdd generalizing cs c ms with
  | nil =>
    simp only [List.map_nil, applyOps, List.append_nil]
    rw [modifyIdx_mounts_self cs i c ms hc hcm]
  | cons m rest ih =>
    have hstep : applyOp ⟨md, .val ⟨.val cs, vf⟩⟩ ⟨.add, .mountsTail i, .mount m⟩
        = some ⟨md, .val ⟨.val (modifyIdx cs i
            (fun x => { x with volumeMounts := Field.val (ms ++ [m]) })), vf⟩⟩ := by
      simp [applyOp, hc, hcm]
    have hc' : (modifyIdx cs i
        (fun x => { x with volumeMounts := Field.val (ms ++ [m]) }))[i]?
        = some { c with volumeMounts := Field.val (ms ++ [m]) } := by
      rw [getElem?_modifyIdx_self, hc]; rfl
    simp only [List.map_cons, applyOps, hstep]
    rw [ih _ _ (ms ++ [m]) hc' rfl, modifyIdx_modifyIdx]
    simp

/-- Applying one container's whole mount patch: the container's
volumeMounts list gains exactly the missing configured records. -/
theorem apply_mount_container (md : Field PodMeta) (vf : Field (List Volume))
    (cs : List Container) (i : Nat) (c : Container) (ms : List VolumeMount)
    (hc : cs[i]? = some c)
    (horig : c.volumeMounts = Field.val ms
      ∨ (c.volumeMounts = Field.absent ∧ ms = [])) :
    applyOps ⟨md, .val ⟨.val cs, vf⟩⟩ (mountContainerOps i ms)
      = some ⟨md, .val ⟨.val (modifyIdx cs i
          (fun x => { x with volumeMounts := Field.val (ms ++ mountRecords ms) })), vf⟩⟩ := by
  have hi : i < cs.length := by
    obtain ⟨h, -⟩ := List.getElem?_eq_some_iff.mp hc
    exact h
  rw [mountContainerOps_def]
  by_cases hr : (mountRecords ms).isEmpty
  · have hr' : mountRecords ms = [] := List.isEmpty_iff.mp hr
    rcases horig with hval | ⟨habs, rfl⟩
    · simp only [hr, if_true, applyOps, hr', List.append_nil]
      rw [modifyIdx_mounts_self cs i c ms hc hval]
    · exact absurd hr' (by decide)
  · by_cases hemp : ms.isEmpty
    · obtain rfl : ms = [] := List.isEmpty_iff.mp hemp
      simp only [hr, List.isEmpty_nil, Bool.not_true, if_false, Bool.false_eq_true]
      dsimp only [applyOps]
      simp [applyOp, hi]
    · rcases horig with hval | ⟨-, rfl⟩
      · simp only [hr, hemp, Bool.not_false, if_true, Bool.false_eq_true, if_false]
        exact apply_mount_appends md vf cs i c ms (mountRecords ms) hc hval
      · exact (hemp rfl).elim

/-- Applying the whole mount patch (computed from containers `suf`) to a pod
whose containers `sufP` carry the same volumeMounts fields: every
container's volumeMounts becomes its patched list. -/
theorem apply_mounts_all (md : Field PodMeta) (vf : Field (List Volume))
    (pre : List Container) (suf sufP : List Container)
    (hsm : sufP.map Container.volumeMounts = suf.map Container.volumeMounts)
    (ops : List PatchOp) (hops : mountPodOps pre.length suf = .ok ops) :
    applyOps ⟨md, .val ⟨.val (pre ++ sufP), vf⟩⟩ ops
      = some ⟨md, .val ⟨.val (pre ++ sufP.map patchMounts), vf⟩⟩ := by
  induction suf generalizing pre sufP ops with
  | nil =>
    obtain rfl : sufP = [] := by simpa using hsm
    obtain rfl : ([] : List PatchOp) = ops := by simpa [mountPodOps] using hops
    simp [applyOps]
  | cons c rest ih =>
    cases sufP with
    | nil => simp at hsm
    | cons cP restP =>
      obtain ⟨hcm, hrest⟩ : cP.volumeMounts = c.volumeMounts
          ∧ restP.map Container.volumeMounts = rest.map Container.volumeMounts := by
        simpa using hsm
      obtain ⟨hnn, more, hmore, rfl⟩ := mountPodOps_cons_ok pre.length c rest ops hops
      rw [applyOps_append]
      have hc : (pre ++ cP :: restP)[pre.length]? = some cP := by
        rw [List.getElem?_append]
        simp
      have horig : cP.volumeMounts = Field.val (fieldListD c.volumeMounts)
          ∨ (cP.volumeMounts = Field.absent ∧ fieldListD c.volumeMounts = []) := by
        cases hce : c.volumeMounts with
        | null => exact absurd hce hnn
        | absent => exact Or.inr ⟨by simp [hcm, hce], by simp [hce, fieldListD]⟩
        | val l => exact Or.inl (by simp [hcm, hce, fieldListD])
      rw [apply_mount_container md vf (pre ++ cP :: restP) pre.length cP
        (fieldListD c.volumeMounts) hc horig]
      dsimp only
      have hmod : modifyIdx (pre ++ cP :: restP) pre.length
          (fun x => { x with volumeMounts := Field.val (fieldListD c.volumeMounts
              ++ mountRecords (fieldListD c.volumeMounts)) })
          = pre ++ patchMounts cP :: restP := by
        rw [modifyIdx_append_at]
        unfold patchMounts
        rw [hcm]
      rw [hmod]
      have hmore' : mountPodOps (pre ++ [patchMounts cP]).length rest = .ok more := by
        simpa [List.length_append] using hmore
      have := ih (pre ++ [patchMounts cP]) restP hrest more hmore'
      simpa [List.append_assoc] using this

/-- Applying the volume step: the auxiliary volume is present afterwards,
nothing else changes. -/
theorem apply_volume_ops (md : Field PodMeta) (cf : Field (List Container))
    (vf : Field (List Volume)) (hvf : vf ≠ Field.null) :
    applyOps ⟨md, .val ⟨cf, vf⟩⟩ (volumeOps (fieldListD vf))
      = some ⟨md, .val ⟨cf, Field.val (newVols (fieldListD vf))⟩⟩ := by
  cases vf with
  | null => exact absurd rfl hvf
  | absent => simp [volumeOps, newVols, fieldListD, applyOps, applyOp, List.any_nil]
  | val vs =>
    by_cases hany : vs.any (fun v => v.name == FILES_VOLUME_NAME)
    · simp [volumeOps, newVols, fieldListD, hany, applyOps]
    · by_cases hemp : vs.isEmpty
      · obtain rfl : vs = [] := List.isEmpty_iff.mp hemp
        simp [volumeOps, newVols, fieldListD, hany, applyOps, applyOp]
      · simp [volumeOps, newVols, fieldListD, hany, hemp, applyOps, applyOp]

/-! ## The patched pod re-triggers only redundant replaces -/

/-- The replace phase preserves every entry's name, positionally. -/
theorem applyRepsFrom_names (acc orig vars : List EnvVar) (k : Nat) :
    ((applyRepsFrom acc orig vars)[k]?).map EnvVar.name
      = (acc[k]?).map EnvVar.name := by
  induction vars generalizing acc with
  | nil => rfl
  | cons ev rest ih =>
    cases hfi : orig.findIdx? (fun it => it.name == ev.name) with
    | none =>
      have hstep : applyRepsFrom acc orig (ev :: rest) = applyRepsFrom acc orig rest := by
        simp [applyRepsFrom, hfi]
      rw [hstep]
      exact ih acc
    | some j =>
      have hstep : applyRepsFrom acc orig (ev :: rest)
          = applyRepsFrom (modifyIdx acc j (fun x => { x with value := ev.value })) orig rest := by
        simp [applyRepsFrom, hfi]
      rw [hstep, ih]
      by_cases hk : k = j
      · subst hk
        rw [getElem?_modifyIdx_self]
        cases acc[k]? <;> rfl
      · rw [getElem?_modifyIdx_ne _ _ _ _ hk]

/-- After the env patch, every injected variable's name occurs in the
container's env list. -/
theorem newEnvList_mem_name (orig vars : List EnvVar) (ev : EnvVar)
    (hev : ev ∈ vars) :
    (newEnvList orig vars).any (fun x => x.name == ev.name) = true := by
  rw [List.any_eq_true]
  cases hfi : orig.findIdx? (fun it => it.name == ev.name) with
  | some j =>
    obtain ⟨hlt, hp, -⟩ := List.findIdx?_eq_some_iff_getElem.mp hfi
    have hnamej : orig[j].name = ev.name := by simpa using hp
    have h1 := applyRepsFrom_names orig orig vars j
    rw [List.getElem?_eq_getElem hlt] at h1
    cases hres : (applyRepsFrom orig orig vars)[j]? with
    | none => rw [hres] at h1; cases h1
    | some x =>
      rw [hres] at h1
      have hx : x.name = ev.name := by
        rw [← hnamej]
        exact Option.some_injective _ h1
      exact ⟨x, List.mem_append.mpr (Or.inl (List.getElem?_mem hres)), by simp [hx]⟩
  | none =>
    refine ⟨ev, List.mem_append.mpr (Or.inr ?_), by simp⟩
    exact List.mem_filter.mpr ⟨hev, by simp [hfi]⟩

/-- On containers whose env list already carries every injected name, the
env builder succeeds and emits only value replaces. -/
theorem envPodOps_all_present (vars : List EnvVar) (k : Nat) (cs2 : List Container)
    (h : ∀ c ∈ cs2, ∃ e, c.env = Field.val e
      ∧ ∀ ev ∈ vars, e.any (fun x => x.name == ev.name) = true) :
    ∃ ops2, envPodOps vars k cs2 = .ok ops2
      ∧ ∀ op ∈ ops2, op.op = POp.replace
        ∧ ∃ i j, op.path = PPath.containerEnvValueAt i j := by
  induction cs2 generalizing k with
  | nil => exact ⟨[], rfl, by intro op hop; cases hop⟩
  | cons c rest ih =>
    obtain ⟨e, hce, hall⟩ := h c (List.mem_cons_self c rest)
    obtain ⟨more, hmore, hshape⟩ :=
      ih (k + 1) (fun c' hc' => h c' (List.mem_cons_of_mem c hc'))
    have htoadd : toAddOf e vars = [] := by
      rw [toAddOf, List.filter_eq_nil_iff]
      intro ev hev
      have hs : (e.findIdx? (fun x => x.name == ev.name)).isSome = true := by
        rw [List.findIdx?_isSome]
        exact hall ev hev
      cases hfi : e.findIdx? (fun x => x.name == ev.name) with
      | none => rw [hfi] at hs; cases hs
      | some j => simp [hfi]
    have hops : envContainerOps k e vars = (envScan k e vars).1 := by
      rw [envContainerOps_def, envScan_snd, htoadd]
      simp
    refine ⟨envContainerOps k e vars ++ more, ?_, ?_⟩
    · unfold envPodOps
      rw [hce]
      dsimp only
      rw [hmore]
      rfl
    · intro op hop
      rcases List.mem_append.mp hop with hl | hr
      · rw [hops] at hl
        rw [envScan_eq] at hl
        obtain ⟨ev, -, hev⟩ := List.mem_filterMap.mp hl
        cases hfi : e.findIdx? (fun it => it.name == ev.name) with
        | none => rw [hfi] at hev; cases hev
        | some j =>
          rw [hfi] at hev
          obtain rfl := Option.some_injective _ hev
          exact ⟨rfl, k, j, rfl⟩
      · exact hshape op hr

/-- After the mount patch, no configured mount is missing. -/
theorem mountRecords_patched (ms : List VolumeMount) :
    mountRecords (ms ++ mountRecords ms) = [] := by
  have hall : ∀ f ∈ FILE_KEYS,
      (ms ++ mountRecords ms).any (fun m => m.mountPath == f.mountPath) = true := by
    intro f hf
    rw [List.any_append]
    by_cases hms : ms.any (fun m => m.mountPath == f.mountPath)
    · simp [hms]
    · have hrec : (⟨FILES_VOLUME_NAME, f.mountPath, some f.key, some true⟩ : VolumeMount)
          ∈ mountRecords ms := by
        rw [mountRecords, List.mem_filterMap]
        exact ⟨f, hf, by simp [hms]⟩
      have : (mountRecords ms).any (fun m => m.mountPath == f.mountPath) = true := by
        rw [List.any_eq_true]
        exact ⟨_, hrec, by simp⟩
      simp [this]
  rw [mountRecords, List.filterMap_eq_nil_iff]
  intro f hf
  simp [hall f hf]

/-- After the volume patch, the auxiliary volume is present. -/
theorem newVols_any (vols : List Volume) :
    (newVols vols).any (fun v => v.name == FILES_VOLUME_NAME) = true := by
  unfold newVols
  by_cases h : vols.any (fun v => v.name == FILES_VOLUME_NAME) <;>
    simp [h, filesVolume]

/-- On containers all of whose configured mounts are present, the mount
loop emits nothing. -/
theorem mountPodOps_ok_nil (k : Nat) (cs2 : List Container)
    (h : ∀ c ∈ cs2, ∃ ms, c.volumeMounts = Field.val ms ∧ mountRecords ms = []) :
    mountPodOps k cs2 = .ok [] := by
  induction cs2 generalizing k with
  | nil => rfl
  | cons c rest ih =>
    obtain ⟨ms, hms, hrec⟩ := h c (List.mem_cons_self c rest)
    unfold mountPodOps
    rw [hms, ih (k + 1) (fun c' hc' => h c' (List.mem_cons_of_mem c hc'))]
    simp [mountContainerOps_def, hrec, fieldListD]

/-! ## Re-submission plumbing -/

theorem reqF_withObject (body : Option Review) (p : Pod) :
    reqF (withObject body p) = Field.val { reqOf body with object := Field.val p } := rfl

theorem kindF_withObject (body : Option Review) (p : Pod) :
    kindF (withObject body p) = kindF body := rfl

theorem kindOf_withObject (body : Option Review) (p : Pod) :
    kindOf (withObject body p) = kindOf body := rfl

theorem nsOf_withObject (body : Option Review) (p : Pod) :
    nsOf (withObject body p) = nsOf body := rfl

theorem objOf_withObject (body : Option Review) (p : Pod) :
    objOf (withObject body p) = p := rfl

theorem labelsOf_withObject (body : Option Review) (p : Pod)
    (hmd : p.metadata = (objOf body).metadata) :
    labelsOf (withObject body p) = labelsOf body := by
  unfold labelsOf mdOf
  rw [objOf_withObject, hmd]

theorem annsOf_withObject (body : Option Review) (p : Pod)
    (hmd : p.metadata = (objOf body).metadata) :
    annsOf (withObject body p) = annsOf body := by
  unfold annsOf mdOf
  rw [objOf_withObject, hmd]

theorem gatesRest_withObject (cfg : Config) (body : Option Review) (p : Pod)
    (hmd : p.metadata = (objOf body).metadata) :
    GatesRest cfg (withObject body p) ↔ GatesRest cfg body := by
  unfold GatesRest LabelGate
  rw [labelsOf_withObject body p hmd, kindOf_withObject, nsOf_withObject]

/-- The decision core on a re-submitted pod object: same gates, builders
run on the substituted pod. -/
theorem mutateOps_withObject (cfg : Config) (body : Option Review) (p : Pod)
    (h0 : kindF body ≠ Field.null) (hmd : p.metadata = (objOf body).metadata) :
    mutateOps cfg (withObject body p) =
      if GatesRest cfg body then
        (match build_env_patch_for_pod p (injectionList cfg (annsOf body)) with
         | .error e => .error e
         | .ok envOps =>
           match build_files_volume_patch_for_pod p with
           | .error e => .error e
           | .ok fileOps => .ok (envOps ++ fileOps))
      else .ok [] := by
  rw [mutateOps_eq]
  rw [if_neg (show ¬reqF (withObject body p) = Field.null by
    rw [reqF_withObject]; simp)]
  rw [kindF_withObject]
  rw [if_neg h0]
  rw [objOf_withObject, annsOf_withObject body p hmd]
  simp only [gatesRest_withObject cfg body p hmd]

theorem apply_env_all0 (md : Field PodMeta) (vf : Field (List Volume))
    (cs : List Container) (vars : List EnvVar) (hvars : vars ≠ [])
    (ops : List PatchOp) (hops : envPodOps vars 0 cs = .ok ops) :
    applyOps ⟨md, .val ⟨.val cs, vf⟩⟩ ops
      = some ⟨md, .val ⟨.val (cs.map (patchEnv vars)), vf⟩⟩ := by
  simpa using apply_env_all md vf [] cs vars hvars ops hops

theorem apply_mounts_all0 (md : Field PodMeta) (vf : Field (List Volume))
    (suf sufP : List Container)
    (hsm : sufP.map Container.volumeMounts = suf.map Container.volumeMounts)
    (ops : List PatchOp) (hops : mountPodOps 0 suf = .ok ops) :
    applyOps ⟨md, .val ⟨.val sufP, vf⟩⟩ ops
      = some ⟨md, .val ⟨.val (sufP.map patchMounts), vf⟩⟩ := by
  simpa using apply_mounts_all md vf [] suf sufP hsm ops hops

/-- Joint inversion of the two builders: the shapes of pods on which both
succeed, and the structure of their outputs. -/
theorem builders_ok_inv (pod : Pod) (vars : List EnvVar)
    (envOps fileOps : List PatchOp)
    (he : build_env_patch_for_pod pod vars = .ok envOps)
    (hf : build_files_volume_patch_for_pod pod = .ok fileOps) :
    (pod.spec = Field.absent ∧ envOps = [] ∧ fileOps = volumeOps [])
    ∨ ∃ cf vf mops, pod.spec = Field.val ⟨cf, vf⟩
        ∧ cf ≠ Field.null ∧ vf ≠ Field.null
        ∧ envPodOps vars 0 (fieldListD cf) = .ok envOps
        ∧ mountPodOps 0 (fieldListD cf) = .ok mops
        ∧ fileOps = volumeOps (fieldListD vf) ++ mops := by
  unfold build_env_patch_for_pod at he
  unfold build_files_volume_patch_for_pod at hf
  cases hs : pod.spec with
  | null => rw [hs] at he; exact Except.noConfusion he
  | absent =>
    left
    rw [hs] at he hf
    dsimp only [Field.orElse] at he hf
    refine ⟨rfl, ?_, ?_⟩
    · exact (((Except.ok.injEq _ _).mp he)).symm ▸ rfl
    · exact (((Except.ok.injEq _ _).mp hf)).symm ▸ rfl
  | val s =>
    right
    obtain ⟨cf, vf⟩ := s
    rw [hs] at he hf
    dsimp only [Field.orElse] at he hf
    have hcfne : cf ≠ Field.null := by
      intro hn
      rw [hn] at he
      exact Except.noConfusion he
    have he' : envPodOps vars 0 (fieldListD cf) = .ok envOps := by
      cases cf with
      | null => exact absurd rfl hcfne
      | absent => exact he
      | val l => exact he
    have hvfne : vf ≠ Field.null := by
      intro hn
      rw [hn] at hf
      exact Except.noConfusion hf
    have hf' : (match mountPodOps 0 (fieldListD cf) with
        | .error e => (.error e : Except PyErr (List PatchOp))
        | .ok mops => .ok (volumeOps (fieldListD vf) ++ mops)) = .ok fileOps := by
      cases vf with
      | null => exact absurd rfl hvfne
      | absent =>
        cases cf with
        | null => exact absurd rfl hcfne
        | absent => exact hf
        | val l => exact hf
      | val vs =>
        cases cf with
        | null => exact absurd rfl hcfne
        | absent => exact hf
        | val l => exact hf
    cases hm : mountPodOps 0 (fieldListD cf) with
    | error e => rw [hm] at hf'; exact Except.noConfusion hf'
    | ok mops =>
      rw [hm] at hf'
      exact ⟨cf, vf, mops, rfl, hcfne, hvfne, he', hm,
        (((Except.ok.injEq _ _).mp hf')).symm⟩

/-- Applying the full matched-path patch to the pod it was computed from:
the pod's containers get their patched env and mounts, the volume list
gains the auxiliary volume, metadata is untouched.  (Pods without a `spec`
member cannot absorb the volume-creating add — RFC 6902 requires the
parent — so a successful application forces `spec` to be present.) -/
theorem apply_builders (pod : Pod) (vars : List EnvVar) (hvars : vars ≠ [])
    (envOps fileOps : List PatchOp) (p1 : Pod)
    (he : build_env_patch_for_pod pod vars = .ok envOps)
    (hf : build_files_volume_patch_for_pod pod = .ok fileOps)
    (h2 : applyOps pod (envOps ++ fileOps) = some p1) :
    ∃ vf, vf ≠ Field.null ∧
      ((∃ cs, pod.spec = Field.val ⟨Field.val cs, vf⟩
          ∧ p1 = ⟨pod.metadata, .val ⟨.val ((cs.map (patchEnv vars)).map patchMounts),
              .val (newVols (fieldListD vf))⟩⟩)
       ∨ (pod.spec = Field.val ⟨Field.absent, vf⟩
          ∧ p1 = ⟨pod.metadata, .val ⟨Field.absent, .val (newVols (fieldListD vf))⟩⟩)) := by
  rcases builders_ok_inv pod vars envOps fileOps he hf with
    ⟨hs, rfl, rfl⟩ | ⟨cf, vf, mops, hs, hcfne, hvfne, he', hm', rfl⟩
  · exfalso
    rw [show volumeOps [] = [⟨.add, .volumesRoot, .volList [filesVolume]⟩] from rfl] at h2
    simp only [List.nil_append, applyOps, applyOp] at h2
    rw [hs] at h2
    exact Option.noConfusion h2
  · have hpod : pod = ⟨pod.metadata, Field.val ⟨cf, vf⟩⟩ := by rw [← hs]
    refine ⟨vf, hvfne, ?_⟩
    cases cf with
    | null => exact absurd rfl hcfne
    | absent =>
      right
      refine ⟨hs, ?_⟩
      obtain rfl : envOps = [] := (((Except.ok.injEq _ _).mp he')).symm ▸ rfl
      obtain rfl : mops = [] := (((Except.ok.injEq _ _).mp hm')).symm ▸ rfl
      rw [List.nil_append, List.append_nil, hpod] at h2
      rw [apply_volume_ops pod.metadata Field.absent vf hvfne] at h2
      exact (Option.some_injective _ h2).symm
    | val cs =>
      left
      refine ⟨cs, hs, ?_⟩
      rw [hpod, applyOps_append] at h2
      rw [apply_env_all0 pod.metadata vf cs vars hvars envOps he'] at h2
      dsimp only at h2
      rw [applyOps_append] at h2
      rw [apply_volume_ops pod.metadata (Field.val (cs.map (patchEnv vars))) vf hvfne] at h2
      dsimp only at h2
      have hsm : (cs.map (patchEnv vars)).map Container.volumeMounts
          = cs.map Container.volumeMounts := by
        rw [List.map_map]
        rfl
      rw [apply_mounts_all0 pod.metadata (Field.val (newVols (fieldListD vf)))
        cs (cs.map (patchEnv vars)) hsm mops hm'] at h2
      exact (Option.some_injective _ h2).symm

/-- The builders, run again on a fully patched pod with containers: every
emitted operation is a redundant env-value replace; the files builder emits
nothing. -/
theorem patched_builders (md : Field PodMeta) (cs : List Container)
    (vols0 : List Volume) (vars : List EnvVar) :
    ∃ ops2,
      (match build_env_patch_for_pod
          ⟨md, .val ⟨.val ((cs.map (patchEnv vars)).map patchMounts), .val (newVols vols0)⟩⟩
          vars with
       | .error e => (.error e : Except PyErr (List PatchOp))
       | .ok envOps =>
         match build_files_volume_patch_for_pod
             ⟨md, .val ⟨.val ((cs.map (patchEnv vars)).map patchMounts),
               .val (newVols vols0)⟩⟩ with
         | .error e => .error e
         | .ok fileOps => .ok (envOps ++ fileOps)) = .ok ops2
      ∧ ∀ op ∈ ops2, op.op = POp.replace
        ∧ ∃ i j, op.path = PPath.containerEnvValueAt i j := by
  obtain ⟨ops2e, hoe, hshape⟩ :=
    envPodOps_all_present vars 0 ((cs.map (patchEnv vars)).map patchMounts) (by
      intro c'' hc''
      obtain ⟨c', hc', rfl⟩ := List.mem_map.mp hc''
      obtain ⟨c, hc, rfl⟩ := List.mem_map.mp hc'
      exact ⟨newEnvList (fieldListD c.env) vars, rfl,
        fun ev hev => newEnvList_mem_name _ _ ev hev⟩)
  have henvb : build_env_patch_for_pod
      ⟨md, .val ⟨.val ((cs.map (patchEnv vars)).map patchMounts), .val (newVols vols0)⟩⟩ vars
      = .ok ops2e := by
    unfold build_env_patch_for_pod
    exact hoe
  have hmnt : mountPodOps 0 ((cs.map (patchEnv vars)).map patchMounts) = .ok [] := by
    apply mountPodOps_ok_nil
    intro c'' hc''
    obtain ⟨c', hc', rfl⟩ := List.mem_map.mp hc''
    exact ⟨fieldListD c'.volumeMounts ++ mountRecords (fieldListD c'.volumeMounts),
      rfl, mountRecords_patched _⟩
  have hfb : build_files_volume_patch_for_pod
      ⟨md, .val ⟨.val ((cs.map (patchEnv vars)).map patchMounts), .val (newVols vols0)⟩⟩
      = .ok [] := by
    unfold build_files_volume_patch_for_pod
    dsimp only [Field.orElse, fieldListD]
    rw [hmnt]
    simp [volumeOps, newVols_any vols0]
  refine ⟨ops2e, ?_, hshape⟩
  rw [henvb, hfb]
  simp

/-- Same, for a patched pod without a containers list. -/
theorem patched_builders_absent (md : Field PodMeta) (vols0 : List Volume)
    (vars : List EnvVar) :
    (match build_env_patch_for_pod ⟨md, .val ⟨Field.absent, .val (newVols vols0)⟩⟩ vars with
     | .error e => (.error e : Except PyErr (List PatchOp))
     | .ok envOps =>
       match build_files_volume_patch_for_pod
           ⟨md, .val ⟨Field.absent, .val (newVols vols0)⟩⟩ with
       | .error e => .error e
       | .ok fileOps => .ok (envOps ++ fileOps)) = Except.ok ([] : List PatchOp) := by
  have henvb : build_env_patch_for_pod ⟨md, .val ⟨Field.absent, .val (newVols vols0)⟩⟩ vars
      = .ok [] := rfl
  have hfb : build_files_volume_patch_for_pod ⟨md, .val ⟨Field.absent, .val (newVols vols0)⟩⟩
      = .ok [] := by
    unfold build_files_volume_patch_for_pod
    dsimp only [Field.orElse, fieldListD]
    simp [mountPodOps, volumeOps, newVols_any vols0]
  rw [henvb, hfb]
  rfl

/-- C1 (amended): re-running the engine on the pod produced by applying the
first run's patch succeeds and yields a patch consisting solely of replace
operations on env values — no add operations, hence no duplicate env
entries, volumes, or mounts.  (Contrary to the claim, the second patch is
not empty: see the counterexample, where it contains a redundant replace
and the response carries patchType/patch.) -/
theorem c1_amended (cfg : Config) (body : Option Review) (ops : List PatchOp)
    (p1 : Pod) (h1 : mutateOps cfg body = .ok ops)
    (h2 : applyOps (objOf body) ops = some p1) :
    ∃ ops2, mutateOps cfg (withObject body p1) = .ok ops2
      ∧ ∀ op ∈ ops2, op.op = POp.replace
        ∧ ∃ i j, op.path = PPath.containerEnvValueAt i j := by
  rw [mutateOps_eq] at h1
  by_cases g1 : reqF body = Field.null
  · rw [if_pos g1] at h1; exact Except.noConfusion h1
  rw [if_neg g1] at h1
  by_cases g2 : kindF body = Field.null
  · rw [if_pos g2] at h1; exact Except.noConfusion h1
  rw [if_neg g2] at h1
  by_cases g3 : GatesRest cfg body
  · rw [if_pos g3] at h1
    cases he : build_env_patch_for_pod (objOf body) (injectionList cfg (annsOf body)) with
    | error e => rw [he] at h1; exact Except.noConfusion h1
    | ok envOps =>
      rw [he] at h1
      dsimp only at h1
      cases hf : build_files_volume_patch_for_pod (objOf body) with
      | error e => rw [hf] at h1; exact Except.noConfusion h1
      | ok fileOps =>
        rw [hf] at h1
        dsimp only at h1
        obtain rfl : ops = envOps ++ fileOps := ((Except.ok.injEq _ _).mp h1).symm
        have hvars : injectionList cfg (annsOf body) ≠ [] := by simp [injectionList]
        obtain ⟨vf, hvfne, hcase⟩ :=
          apply_builders (objOf body) _ hvars envOps fileOps p1 he hf h2
        rcases hcase with ⟨cs, hs, rfl⟩ | ⟨hs, rfl⟩
        · rw [mutateOps_withObject cfg body
            ⟨(objOf body).metadata, .val ⟨.val ((cs.map
                (patchEnv (injectionList cfg (annsOf body)))).map patchMounts),
              .val (newVols (fieldListD vf))⟩⟩ g2 rfl, if_pos g3]
          exact patched_builders (objOf body).metadata cs (fieldListD vf)
            (injectionList cfg (annsOf body))
        · rw [mutateOps_withObject cfg body
            ⟨(objOf body).metadata, .val ⟨Field.absent, .val (newVols (fieldListD vf))⟩⟩
            g2 rfl, if_pos g3]
          refine ⟨[], ?_, by intro op hop; cases hop⟩
          exact patched_builders_absent (objOf body).metadata (fieldListD vf)
            (injectionList cfg (annsOf body))
  · rw [if_neg g3] at h1
    obtain rfl : ops = [] := ((Except.ok.injEq _ _).mp h1).symm
    obtain rfl : p1 = objOf body := by
      have h2' : some (objOf body) = some p1 := by simpa [applyOps] using h2
      exact (Option.some_injective _ h2').symm
    rw [mutateOps_withObject cfg body _ g2 rfl, if_neg g3]
    exact ⟨[], rfl, by intro op hop; cases hop⟩

/-- C1 amended, witnessed on the concrete matching pod `podA`: the second
run is a single redundant replace. -/
theorem c1_amended_witness :
    ∃ ops2, mutateOps cfgA (withObject (some bodyA) podA1) = .ok ops2
      ∧ ∀ op ∈ ops2, op.op = POp.replace
        ∧ ∃ i j, op.path = PPath.containerEnvValueAt i j :=
  c1_amended cfgA (some bodyA) opsA podA1 rfl rfl

/-! ## Exactness of the patched pod (duplicate-free inputs) -/

theorem nodup_getElem?_inj (l : List α) (h : l.Nodup) (k j : Nat) (a : α)
    (hk : l[k]? = some a) (hj : l[j]? = some a) : k = j := by
  obtain ⟨hk1, hk2⟩ := List.getElem?_eq_some_iff.mp hk
  obtain ⟨hj1, hj2⟩ := List.getElem?_eq_some_iff.mp hj
  have h2 := List.nodup_iff_injective_get.mp h
    (show l.get ⟨k, hk1⟩ = l.get ⟨j, hj1⟩ by simp [List.get_eq_getElem, hk2, hj2])
  simpa using congrArg Fin.val h2

theorem filter_eq_single_of_unique (l : List α) (p : α → Bool) (j : Nat) (x : α)
    (hx : l[j]? = some x) (hpx : p x = true)
    (huniq : ∀ k y, l[k]? = some y → p y = true → k = j) :
    l.filter p = [x] := by
  induction l generalizing j with
  | nil => cases hx
  | cons a as ih =>
    cases j with
    | zero =>
      obtain rfl : a = x := by simpa using hx
      rw [List.filter_cons, if_pos hpx]
      have : as.filter p = [] := by
        rw [List.filter_eq_nil_iff]
        intro y hy hp
        obtain ⟨k, hk⟩ := List.mem_iff_getElem?.mp hy
        have := huniq (k + 1) y (by simpa using hk) hp
        omega
      rw [this]
    | succ j' =>
      have hpa : p a = false := by
        cases hp : p a with
        | false => rfl
        | true =>
          have := huniq 0 a (by simp) hp
          omega
      rw [List.filter_cons, if_neg (by simp [hpa])]
      refine ih j' (by simpa using hx) ?_
      intro k y hk hp
      have := huniq (k + 1) y (by simpa using hk) hp
      omega

/-- With duplicate-free names, the injection list's slice for one of its
names is that single entry. -/
theorem nodup_names_filter_single (vars : List EnvVar) (ev : EnvVar)
    (hnd : (vars.map EnvVar.name).Nodup) (hev : ev ∈ vars) :
    vars.filter (fun x => x.name == ev.name) = [ev] := by
  induction vars with
  | nil => cases hev
  | cons a rest ih =>
    have hand : a.name ∉ rest.map EnvVar.name := (List.nodup_cons.mp hnd).1
    have hnd' : (rest.map EnvVar.name).Nodup := (List.nodup_cons.mp hnd).2
    rcases List.mem_cons.mp hev with rfl | hrest
    · rw [List.filter_cons, if_pos (by simp)]
      have : rest.filter (fun x => x.name == ev.name) = [] := by
        rw [List.filter_eq_nil_iff]
        intro y hy hp
        have hm := List.mem_map_of_mem EnvVar.name hy
        rw [beq_iff_eq.mp hp] at hm
        exact hand hm
      rw [this]
    · have hane : (a.name == ev.name) = false := by
        have hmem : ev.name ∈ rest.map EnvVar.name := List.mem_map_of_mem EnvVar.name hrest
        cases hb : (a.name == ev.name) with
        | false => rfl
        | true =>
          rw [beq_iff_eq.mp hb] at hand
          exact absurd hmem hand
      rw [List.filter_cons, if_neg (by simp [hane])]
      exact ih hnd' hrest

theorem applyRepsFrom_untouched (acc orig vars : List EnvVar) (j : Nat)
    (h : ∀ ev ∈ vars, orig.findIdx? (fun it => it.name == ev.name) ≠ some j) :
    (applyRepsFrom acc orig vars)[j]? = acc[j]? := by
  induction vars generalizing acc with
  | nil => rfl
  | cons ev rest ih =>
    cases hfi : orig.findIdx? (fun it => it.name == ev.name) with
    | none =>
      have hstep : applyRepsFrom acc orig (ev :: rest) = applyRepsFrom acc orig rest := by
        simp [applyRepsFrom, hfi]
      rw [hstep]
      exact ih acc (fun e he => h e (List.mem_cons_of_mem ev he))
    | some j' =>
      have hne : j ≠ j' := by
        intro hcon
        exact h ev (List.mem_cons_self ev rest) (hcon ▸ hfi)
      have hstep : applyRepsFrom acc orig (ev :: rest)
          = applyRepsFrom (modifyIdx acc j' (fun x => { x with value := ev.value })) orig rest := by
        simp [applyRepsFrom, hfi]
      rw [hstep, ih _ (fun e he => h e (List.mem_cons_of_mem ev he))]
      exact getElem?_modifyIdx_ne acc j' j _ hne

theorem applyRepsFrom_hit (acc orig vars : List EnvVar) (ev : EnvVar) (j : Nat)
    (hvnd : (vars.map EnvVar.name).Nodup) (hev : ev ∈ vars)
    (hsome : orig.findIdx? (fun it => it.name == ev.name) = some j)
    (hlen : acc.length = orig.length)
    (hnames : ∀ k : Nat, (acc[k]?).map EnvVar.name = (orig[k]?).map EnvVar.name) :
    (applyRepsFrom acc orig vars)[j]? = some ⟨ev.name, ev.value⟩ := by
  obtain ⟨hj, hpj, -⟩ := List.findIdx?_eq_some_iff_getElem.mp hsome
  have hjname : orig[j].name = ev.name := by simpa using hpj
  induction vars generalizing acc with
  | nil => cases hev
  | cons a rest ih =>
    have hand : a.name ∉ rest.map EnvVar.name := (List.nodup_cons.mp hvnd).1
    have hnd' : (rest.map EnvVar.name).Nodup := (List.nodup_cons.mp hvnd).2
    rcases List.mem_cons.mp hev with rfl | hrest
    · have hstep : applyRepsFrom acc orig (ev :: rest)
          = applyRepsFrom (modifyIdx acc j (fun x => { x with value := ev.value })) orig rest := by
        simp [applyRepsFrom, hsome]
      rw [hstep]
      rw [applyRepsFrom_untouched _ orig rest j ?huntouched]
      case huntouched =>
        intro e he hcon
        obtain ⟨hj2, hpj2, -⟩ := List.findIdx?_eq_some_iff_getElem.mp hcon
        have : orig[j].name = e.name := by simpa using hpj2
        rw [hjname] at this
        exact hand (this ▸ List.mem_map_of_mem EnvVar.name he)
      rw [getElem?_modifyIdx_self]
      have hlj : j < acc.length := hlen ▸ hj
      obtain ⟨b, hb⟩ : ∃ b, acc[j]? = some b := ⟨acc[j], List.getElem?_eq_getElem hlj⟩
      have hbn : b.name = ev.name := by
        have := hnames j
        rw [hb, List.getElem?_eq_getElem hj] at this
        rw [← hjname]
        exact Option.some_injective _ this
      rw [hb]
      simp [hbn]
    · have hane : ev ≠ a := by
        intro hcon
        rw [← hcon] at hand
        exact hand (List.mem_map_of_mem EnvVar.name hrest)
      cases hfi : orig.findIdx? (fun it => it.name == a.name) with
      | none =>
        have hstep : applyRepsFrom acc orig (a :: rest) = applyRepsFrom acc orig rest := by
          simp [applyRepsFrom, hfi]
        rw [hstep]
        exact ih acc hnd' hrest hlen hnames
      | some j' =>
        have hstep : applyRepsFrom acc orig (a :: rest)
            = applyRepsFrom (modifyIdx acc j' (fun x => { x with value := a.value })) orig rest := by
          simp [applyRepsFrom, hfi]
        rw [hstep]
        refine ih _ hnd' hrest (by rw [modifyIdx_length]; exact hlen) ?_
        intro k
        by_cases hk : k = j'
        · subst hk
          rw [getElem?_modifyIdx_self]
          rw [← hnames k]
          cases acc[k]? <;> rfl
        · rw [getElem?_modifyIdx_ne acc j' k _ hk]
          exact hnames k

/-- With duplicate-free injected names and a duplicate-free original env
list, the patched env list carries each injected variable exactly once,
with the injected value. -/
theorem newEnvList_filter (orig vars : List EnvVar) (ev : EnvVar)
    (hvnd : (vars.map EnvVar.name).Nodup) (hond : (orig.map EnvVar.name).Nodup)
    (hev : ev ∈ vars) :
    (newEnvList orig vars).filter (fun x => x.name == ev.name)
      = [⟨ev.name, ev.value⟩] := by
  unfold newEnvList
  rw [List.filter_append]
  cases hfi : orig.findIdx? (fun it => it.name == ev.name) with
  | none =>
    have h1 : (applyRepsFrom orig orig vars).filter (fun x => x.name == ev.name) = [] := by
      rw [List.filter_eq_nil_iff]
      intro x hx
      obtain ⟨k, hk⟩ := List.mem_iff_getElem?.mp hx
      have hnk := applyRepsFrom_names orig orig vars k
      rw [hk] at hnk
      cases hok : orig[k]? with
      | none => rw [hok] at hnk; cases hnk
      | some y =>
        rw [hok] at hnk
        have hxy : x.name = y.name := Option.some_injective _ hnk
        have hyne := List.findIdx?_eq_none_iff.mp hfi y (List.getElem?_mem hok)
        simp only [hxy]
        simpa using hyne
    have h2 : (toAddOf orig vars).filter (fun x => x.name == ev.name) = [ev] := by
      rw [toAddOf, List.filter_comm, nodup_names_filter_single vars ev hvnd hev]
      simp [List.filter_cons, hfi]
    rw [h1, h2]
    rfl
  | some j =>
    obtain ⟨hj, hpj, -⟩ := List.findIdx?_eq_some_iff_getElem.mp hfi
    have hjname : orig[j].name = ev.name := by simpa using hpj
    have h2 : (toAddOf orig vars).filter (fun x => x.name == ev.name) = [] := by
      rw [toAddOf, List.filter_comm, nodup_names_filter_single vars ev hvnd hev]
      simp [List.filter_cons, hfi]
    have hhit := applyRepsFrom_hit orig orig vars ev j hvnd hev hfi rfl (fun k => rfl)
    have h1 : (applyRepsFrom orig orig vars).filter (fun x => x.name == ev.name)
        = [⟨ev.name, ev.value⟩] := by
      refine filter_eq_single_of_unique _ _ j _ hhit (by simp) ?_
      intro k y hk hp
      have hnk := applyRepsFrom_names orig orig vars k
      rw [hk] at hnk
      cases hok : orig[k]? with
      | none => rw [hok] at hnk; cases hnk
      | some z =>
        rw [hok] at hnk
        have hyz : y.name = z.name := Option.some_injective _ hnk
        have hz : z.name = ev.name := by
          rw [← hyz]
          simpa using hp
        refine nodup_getElem?_inj (orig.map EnvVar.name) hond k j ev.name ?_ ?_
        · rw [List.getElem?_map, hok]
          simp [hz]
        · rw [List.getElem?_map, List.getElem?_eq_getElem hj]
          simp [hjname]
    rw [h1, h2, List.append_nil]

theorem filter_path_length_le_one (ms : List VolumeMount) (q : String)
    (hnd : (ms.map VolumeMount.mountPath).Nodup) :
    (ms.filter (fun m => m.mountPath == q)).length ≤ 1 := by
  induction ms with
  | nil => simp
  | cons a rest ih =>
    have hand : a.mountPath ∉ rest.map VolumeMount.mountPath := (List.nodup_cons.mp hnd).1
    have hnd' : (rest.map VolumeMount.mountPath).Nodup := (List.nodup_cons.mp hnd).2
    rw [List.filter_cons]
    by_cases hpa : (a.mountPath == q) = true
    · rw [if_pos hpa]
      have hres : rest.filter (fun m => m.mountPath == q) = [] := by
        rw [List.filter_eq_nil_iff]
        intro y hy hp
        have hm := List.mem_map_of_mem VolumeMount.mountPath hy
        rw [beq_iff_eq.mp hp, ← beq_iff_eq.mp hpa] at hm
        exact hand hm
      rw [hres]
      simp
    · rw [if_neg hpa]
      exact ih hnd'

/-- After the mount patch, a container carries exactly one mount at each
configured mount path (given the original mounts had no duplicated paths). -/
theorem patched_mounts_filter (ms : List VolumeMount) (f : FileKey)
    (hfk : f ∈ FILE_KEYS)
    (hnd : (ms.map VolumeMount.mountPath).Nodup) :
    ((ms ++ mountRecords ms).filter (fun m => m.mountPath == f.mountPath)).length = 1 := by
  have hle := filter_path_length_le_one ms f.mountPath hnd
  rw [List.filter_append, List.length_append]
  cases hany : ms.any (fun m => m.mountPath == f.mountPath) with
  | true =>
    obtain ⟨x, hx, hpx⟩ := List.any_eq_true.mp hany
    have hge : 1 ≤ (ms.filter (fun m => m.mountPath == f.mountPath)).length :=
      List.length_pos_of_mem (List.mem_filter.mpr ⟨hx, hpx⟩)
    have hrec : ((mountRecords ms).filter (fun m => m.mountPath == f.mountPath)) = [] := by
      rw [List.filter_eq_nil_iff]
      intro y hy hp
      unfold mountRecords at hy
      obtain ⟨g, hg, hgy⟩ := List.mem_filterMap.mp hy
      by_cases hco : ms.any (fun m => m.mountPath == g.mountPath) = true
      · rw [if_pos hco] at hgy
        cases hgy
      · rw [if_neg hco] at hgy
        obtain rfl : (⟨FILES_VOLUME_NAME, g.mountPath, some g.key, some true⟩ : VolumeMount)
            = y := Option.some_injective _ hgy
        have hgq : g.mountPath = f.mountPath := by simpa using hp
        rw [hgq] at hco
        exact hco hany
    rw [hrec]
    simp only [List.length_nil]
    omega
  | false =>
    have hms : ms.filter (fun m => m.mountPath == f.mountPath) = [] := by
      rw [List.filter_eq_nil_iff]
      intro y hy hp
      have : ms.any (fun m => m.mountPath == f.mountPath) = true :=
        List.any_eq_true.mpr ⟨y, hy, hp⟩
      rw [hany] at this
      cases this
    have hfk2 : f = (⟨"sitecustomize.py", "/home/vllm/profiler/sitecustomize.py"⟩ : FileKey)
        ∨ f = (⟨"profiler_config.yaml", "/home/vllm/profiler/profiler_config.yaml"⟩ : FileKey) := by
      simpa [FILE_KEYS] using hfk
    rw [hms]
    rcases hfk2 with rfl | rfl
    · have hany1 : ms.any (fun m =>
          m.mountPath == "/home/vllm/profiler/sitecustomize.py") = false := hany
      cases hany2 : ms.any (fun m =>
          m.mountPath == "/home/vllm/profiler/profiler_config.yaml") with
      | true =>
        simp only [mountRecords, FILE_KEYS, List.filterMap_cons, List.filterMap_nil,
          hany1, hany2]
        decide
      | false =>
        simp only [mountRecords, FILE_KEYS, List.filterMap_cons, List.filterMap_nil,
          hany1, hany2]
        decide
    · have hany1 : ms.any (fun m =>
          m.mountPath == "/home/vllm/profiler/profiler_config.yaml") = false := hany
      cases hany2 : ms.any (fun m =>
          m.mountPath == "/home/vllm/profiler/sitecustomize.py") with
      | true =>
        simp only [mountRecords, FILE_KEYS, List.filterMap_cons, List.filterMap_nil,
          hany2, hany1]
        decide
      | false =>
        simp only [mountRecords, FILE_KEYS, List.filterMap_cons, List.filterMap_nil,
          hany2, hany1]
        decide

/-- After the volume patch, the pod carries exactly one auxiliary-named
volume (given it carried at most one before). -/
theorem newVols_filter_single (vols : List Volume)
    (hle : ((vols.filter (fun v => v.name == FILES_VOLUME_NAME))).length ≤ 1) :
    ((newVols vols).filter (fun v => v.name == FILES_VOLUME_NAME)).length = 1 := by
  unfold newVols
  cases hany : vols.any (fun v => v.name == FILES_VOLUME_NAME) with
  | true =>
    rw [if_pos rfl]
    obtain ⟨x, hx, hpx⟩ := List.any_eq_true.mp hany
    have hge : 1 ≤ (vols.filter (fun v => v.name == FILES_VOLUME_NAME)).length :=
      List.length_pos_of_mem (List.mem_filter.mpr ⟨hx, hpx⟩)
    omega
  | false =>
    rw [if_neg (by decide)]
    rw [List.filter_append, List.length_append]
    have h0 : vols.filter (fun v => v.name == FILES_VOLUME_NAME) = [] := by
      rw [List.filter_eq_nil_iff]
      intro y hy hp
      have : vols.any (fun v => v.name == FILES_VOLUME_NAME) = true :=
        List.any_eq_true.mpr ⟨y, hy, hp⟩
      rw [hany] at this
      cases this
    rw [h0]
    simp [filesVolume, FILES_VOLUME_NAME]

/-- C2 (amended): for every matching pod (explicit containers list and
non-`null` spec members, so both builders succeed) whose injection list
carries no duplicate names, whose containers carry no duplicate env names
or mount paths, and whose volume list carries at most one auxiliary-named
entry, applying the produced operations sequentially (RFC 6902) succeeds
and yields the patched pod in which every container's env list contains
each injected variable name exactly once with the injected value
(pre-existing entries are overwritten in place), every container carries
exactly one mount at each configured mount path, and the volume list
contains exactly one auxiliary-named entry. (Without the duplicate-freedom
hypotheses the claim fails: see the counterexample.) -/
theorem c2_amended (md : Field PodMeta) (cs : List Container) (vf : Field (List Volume))
    (vars : List EnvVar) (envOps fileOps : List PatchOp) (p1 : Pod)
    (hvars : vars ≠ [])
    (hvnd : (vars.map EnvVar.name).Nodup)
    (hcnd : ∀ c ∈ cs, ((fieldListD c.env).map EnvVar.name).Nodup)
    (hmnd : ∀ c ∈ cs, ((fieldListD c.volumeMounts).map VolumeMount.mountPath).Nodup)
    (hvle : ((fieldListD vf).filter (fun v => v.name == FILES_VOLUME_NAME)).length ≤ 1)
    (he : build_env_patch_for_pod ⟨md, Field.val ⟨Field.val cs, vf⟩⟩ vars = .ok envOps)
    (hf : build_files_volume_patch_for_pod ⟨md, Field.val ⟨Field.val cs, vf⟩⟩ = .ok fileOps)
    (h2 : applyOps ⟨md, Field.val ⟨Field.val cs, vf⟩⟩ (envOps ++ fileOps) = some p1) :
    p1 = ⟨md, Field.val ⟨Field.val ((cs.map (patchEnv vars)).map patchMounts),
        Field.val (newVols (fieldListD vf))⟩⟩
    ∧ (∀ c ∈ cs, ∀ ev ∈ vars,
        (newEnvList (fieldListD c.env) vars).filter (fun x => x.name == ev.name)
          = [⟨ev.name, ev.value⟩])
    ∧ (∀ c ∈ cs, ∀ f ∈ FILE_KEYS,
        ((fieldListD c.volumeMounts ++ mountRecords (fieldListD c.volumeMounts)).filter
          (fun m => m.mountPath == f.mountPath)).length = 1)
    ∧ ((newVols (fieldListD vf)).filter (fun v => v.name == FILES_VOLUME_NAME)).length = 1 := by
  obtain ⟨vf', hvfne, hcase⟩ :=
    apply_builders ⟨md, Field.val ⟨Field.val cs, vf⟩⟩ vars hvars envOps fileOps p1 he hf h2
  rcases hcase with ⟨cs', hs, hp1⟩ | ⟨hs, hp1⟩
  · dsimp only at hs
    injection hs with h1
    injection h1 with h3 h4
    injection h3 with h5
    subst h5
    subst h4
    refine ⟨hp1, ?_, ?_, ?_⟩
    · intro c hc ev hev
      exact newEnvList_filter (fieldListD c.env) vars ev hvnd (hcnd c hc) hev
    · intro c hc f hfk
      exact patched_mounts_filter (fieldListD c.volumeMounts) f hfk (hmnd c hc)
    · exact newVols_filter_single (fieldListD vf) hvle
  · dsimp only at hs
    injection hs with h1
    injection h1 with h3 h4
    exact Field.noConfusion h3

/-- C2 amended, witnessed on `podA` under `cfgA` patch operations: the
patched volume list carries exactly one auxiliary-named volume, and the
patched env list carries exactly one `XPROF` entry, with value `1`. -/
theorem c2_amended_witness :
    ((newVols (fieldListD (Field.absent : Field (List Volume)))).filter
      (fun v => v.name == FILES_VOLUME_NAME)).length = 1
    ∧ (newEnvList (fieldListD contA.env) [⟨"XPROF", "1"⟩]).filter
        (fun x => x.name == "XPROF") = [⟨"XPROF", "1"⟩] := by
  have h := c2_amended podA.metadata [contA] Field.absent [⟨"XPROF", "1"⟩]
    [⟨.add, .containerEnvRoot 0, .envList [⟨"XPROF", "1"⟩]⟩]
    [⟨.add, .volumesRoot, .volList [filesVolume]⟩,
     ⟨.add, .mountsRoot 0, .mountList
       [⟨"env-injector-files", "/home/vllm/profiler/sitecustomize.py",
         some "sitecustomize.py", some true⟩,
        ⟨"env-injector-files", "/home/vllm/profiler/profiler_config.yaml",
         some "profiler_config.yaml", some true⟩]⟩]
    podA1 (by decide) (by decide) (by decide) (by decide) (by decide) rfl rfl rfl
  exact ⟨h.2.2.2, h.2.1 contA (List.mem_cons_self contA []) ⟨"XPROF", "1"⟩
    (List.mem_cons_self _ [])⟩

end Webhook
